import Mathlib

/-! Bank-account simulator (`src/multithreading.c`)

A shallow embedding of the worker functions `perform_operation` and
`perform_transfer` as program-counter machines over the shared account store,
the interleaving semantics of a population of such workers, and the results
proved about them.

Modelling choices:

* A `long` is an integer in `[LONG_MIN, LONG_MAX]`; the value stored by `+=` and
  `-=` on a `long` is the exact result reduced modulo 2^64 into that range
  (`wrapLong`). The program has no overflow check of its own.
* A `pthread_mutex_t` is the identity of the worker that holds it, if any.
  `pthread_mutex_lock` on a held mutex leaves the caller without a step until the
  mutex is free; `pthread_mutex_trylock` on a held mutex fails.
* Indexing `accounts[i]` with `i` outside `[0, NUM_ACCOUNTS)` has no defined
  result: the worker has no next step.
* One step of a worker is one access to shared state (a mutex operation, a read
  or a write of a balance), a sleep, or a test on locals. The read and the write
  of a read-modify-write are separate steps.
* A schedule lists the workers in the order in which they move. Each entry also
  carries a flag consulted by `pthread_mutex_trylock` only: when it is `false` the
  attempt fails as if a party outside the modelled population held the mutex, so
  every sequence of trylock outcomes the environment can cause is covered.
* A worker run alone (`perform_transfer`, `perform_operation`) is the same machine
  stepped on its own, with the flags given by an oracle indexed by the attempt.
* Of the driver `main`, `boot` is the state right after the workers of one phase
  have been created on free mutexes; the driver does nothing to the store while
  such a population runs. The recovery after Phase 3 (lines 238-255), which acts
  on the store while workers of Phase 3 are still there, is `main_recovery`, and
  the process from there on is `Proc`.
-/

namespace Bank

/-! ## Data model -/

/-- Number of accounts in the simulation (`#define NUM_ACCOUNTS 5`). -/
abbrev NUM_ACCOUNTS : Nat := 5

/-- Largest value of a `long`. -/
def LONG_MAX : Int := 9223372036854775807

/-- Smallest value of a `long`. -/
def LONG_MIN : Int := -9223372036854775808

/-- The integer is representable as a `long`. -/
def isLong (x : Int) : Prop := LONG_MIN ≤ x ∧ x ≤ LONG_MAX

instance (x : Int) : Decidable (isLong x) := by
  unfold isLong; infer_instance

/-- Value of a `long` arithmetic result: reduction modulo 2^64 into
`[LONG_MIN, LONG_MAX]`. -/
def wrapLong (x : Int) : Int :=
  (x + 9223372036854775808) % 18446744073709551616 - 9223372036854775808

/-- Bank account (`typedef struct { int id; long balance; pthread_mutex_t mutex; } Account`).
The mutex is `some w` when worker `w` holds it and `none` when it is free. -/
structure Account where
  id : Int
  balance : Int
  mutex : Option Nat
deriving DecidableEq

/-- The global array `Account accounts[NUM_ACCOUNTS]`. -/
abbrev Store := Fin NUM_ACCOUNTS → Account

/-- Parameters of a deposit or withdraw (`OpParams`). -/
structure OpParams where
  thread_id : Int
  acc_id : Int
  amount : Int
  use_mutex : Int
deriving DecidableEq

/-- Parameters of a transfer (`TransferParams`). -/
structure TransferParams where
  thread_id : Int
  from_acc : Int
  to_acc : Int
  amount : Int
  use_deadlock_avoidance : Int
deriving DecidableEq

/-- Array slot addressed by the C index `i`, when `i` is within bounds. -/
def slot (i : Int) : Option (Fin NUM_ACCOUNTS) :=
  if h : 0 ≤ i ∧ i < NUM_ACCOUNTS then some ⟨i.toNat, by unfold NUM_ACCOUNTS at *; omega⟩
  else none

/-- Read of `accounts[i].balance`. -/
def getBalance (s : Store) (i : Fin NUM_ACCOUNTS) : Int := (s i).balance

/-- Write of `accounts[i].balance`. -/
def setBalance (s : Store) (i : Fin NUM_ACCOUNTS) (v : Int) : Store :=
  Function.update s i { s i with balance := v }

/-! ## Mutex primitives -/

/-- Blocking `pthread_mutex_lock` by worker `me`: returns once the mutex is free,
taking it; `none` while the caller has to wait. -/
def pthread_mutex_lock (me : Nat) (s : Store) (i : Fin NUM_ACCOUNTS) : Option Store :=
  if (s i).mutex = none then some (Function.update s i { s i with mutex := some me }) else none

/-- Non-blocking `pthread_mutex_trylock` by worker `me`: succeeds (C result 0, here
`true`) when the mutex is free and no outside party holds it. -/
def pthread_mutex_trylock (me : Nat) (outsideFree : Bool) (s : Store) (i : Fin NUM_ACCOUNTS) :
    Bool × Store :=
  if (s i).mutex = none ∧ outsideFree = true then
    (true, Function.update s i { s i with mutex := some me })
  else (false, s)

/-- Release by `pthread_mutex_unlock` of a mutex held by worker `me`; unlocking a
mutex the caller does not hold has no defined result. -/
def pthread_mutex_unlock (me : Nat) (s : Store) (i : Fin NUM_ACCOUNTS) : Option Store :=
  if (s i).mutex = some me then some (Function.update s i { s i with mutex := none }) else none

/-! ## `perform_operation` (lines 35-66) -/

/-- Program points of `perform_operation`. -/
inductive OpPc
  | start      -- lines 36-46: entry, test of use_mutex
  | lock       -- line 47
  | read       -- line 52
  | sleep      -- line 53
  | write      -- lines 54-55
  | unlock     -- lines 59-60
  | finished   -- lines 64-65
deriving DecidableEq

/-- Locals of one `perform_operation` worker. -/
structure OpThread where
  p : OpParams
  pc : OpPc
  old_balance : Int
  new_balance : Int
deriving DecidableEq

/-- Worker state at entry of `perform_operation`. -/
def OpThread.start (p : OpParams) : OpThread :=
  { p := p, pc := .start, old_balance := 0, new_balance := 0 }

/-- One step of a `perform_operation` worker `me` on the shared store. -/
def OpThread.step (me : Nat) (t : OpThread) (s : Store) : Option (OpThread × Store) :=
  match t.pc with
  | .start =>
    if t.p.use_mutex ≠ 0 then some ({ t with pc := .lock }, s)
    else some ({ t with pc := .read }, s)
  | .lock =>
    (slot t.p.acc_id).bind fun i =>
      (pthread_mutex_lock me s i).map fun s' => ({ t with pc := .read }, s')
  | .read =>
    (slot t.p.acc_id).map fun i =>
      ({ t with pc := .sleep, old_balance := getBalance s i }, s)
  | .sleep => some ({ t with pc := .write }, s)
  | .write =>
    (slot t.p.acc_id).map fun i =>
      let nb := wrapLong (t.old_balance + t.p.amount)
      ({ t with pc := if t.p.use_mutex ≠ 0 then .unlock else .finished, new_balance := nb },
        setBalance s i nb)
  | .unlock =>
    (slot t.p.acc_id).bind fun i =>
      (pthread_mutex_unlock me s i).map fun s' => ({ t with pc := .finished }, s')
  | .finished => none

/-! ## `perform_transfer` (lines 69-154) -/

/-- Program points of `perform_transfer`. -/
inductive TPc
  | start          -- lines 70-77: entry, test of use_deadlock_avoidance, lines 98-108
  | n_lock_from    -- line 79
  | n_sleep        -- line 81
  | n_lock_to      -- line 82
  | n_debit_rd     -- line 86 (read)
  | n_debit_wr     -- line 86 (write)
  | n_credit_rd    -- line 87 (read)
  | n_credit_wr    -- line 87 (write)
  | n_unlock_to    -- lines 88-92: print of the new balances, unlock
  | n_unlock_from  -- lines 93-94
  | loop_head      -- lines 109-111
  | lock_first     -- lines 113-114
  | trylock        -- lines 118-119, 132
  | release        -- lines 126-127
  | backoff        -- lines 129-130
  | after_loop     -- line 135 (test), line 147 (test)
  | debit_rd       -- line 137 (read)
  | debit_wr       -- line 137 (write)
  | credit_rd      -- line 138 (read)
  | credit_wr      -- line 138 (write)
  | unlock_second  -- lines 139-142: print of the new balances, unlock
  | unlock_first   -- lines 143-144
  | abort_unlock   -- line 147 (unlock), line 148
  | finished       -- lines 152-153
deriving DecidableEq

/-- What the worker printed about the transfer: nothing yet, "Transfer completed
and locks released" (lines 94, 144) or "Transfer aborted to avoid deadlock"
(line 148). -/
inductive Report
  | silent
  | completed
  | aborted
deriving DecidableEq

/-- Locals of one `perform_transfer` worker; `tmp` is the register of the
read-modify-write of a balance. -/
structure TransferThread where
  p : TransferParams
  pc : TPc
  first : Int
  second : Int
  got_first : Bool
  got_second : Bool
  attempt : Nat
  tmp : Int
  report : Report
deriving DecidableEq

/-- Retry budget (`const int max_retries = 5`). -/
def max_retries : Nat := 5

/-- Lock order of lines 98-104: `first = from; second = to;` swapped when
`first > second`. -/
def lockOrder (src dst : Int) : Int × Int :=
  if src > dst then (dst, src) else (src, dst)

/-- Worker state at entry of `perform_transfer`. -/
def TransferThread.start (p : TransferParams) : TransferThread :=
  { p := p, pc := .start, first := 0, second := 0, got_first := false, got_second := false,
    attempt := 0, tmp := 0, report := .silent }

/-- One step of a `perform_transfer` worker `me` on the shared store; `outsideFree`
is consulted by `pthread_mutex_trylock` only. -/
def TransferThread.step (me : Nat) (outsideFree : Bool) (t : TransferThread) (s : Store) :
    Option (TransferThread × Store) :=
  match t.pc with
  | .start =>
    if t.p.use_deadlock_avoidance = 0 then some ({ t with pc := .n_lock_from }, s)
    else
      some ({ t with pc := .loop_head,
                     first := (lockOrder t.p.from_acc t.p.to_acc).1,
                     second := (lockOrder t.p.from_acc t.p.to_acc).2,
                     got_first := false, got_second := false, attempt := 0 }, s)
  -- naive locking
  | .n_lock_from =>
    (slot t.p.from_acc).bind fun i =>
      (pthread_mutex_lock me s i).map fun s' => ({ t with pc := .n_sleep }, s')
  | .n_sleep => some ({ t with pc := .n_lock_to }, s)
  | .n_lock_to =>
    (slot t.p.to_acc).bind fun i =>
      (pthread_mutex_lock me s i).map fun s' => ({ t with pc := .n_debit_rd }, s')
  | .n_debit_rd =>
    (slot t.p.from_acc).map fun i => ({ t with pc := .n_debit_wr, tmp := getBalance s i }, s)
  | .n_debit_wr =>
    (slot t.p.from_acc).map fun i =>
      ({ t with pc := .n_credit_rd }, setBalance s i (wrapLong (t.tmp - t.p.amount)))
  | .n_credit_rd =>
    (slot t.p.to_acc).map fun i => ({ t with pc := .n_credit_wr, tmp := getBalance s i }, s)
  | .n_credit_wr =>
    (slot t.p.to_acc).map fun i =>
      ({ t with pc := .n_unlock_to }, setBalance s i (wrapLong (t.tmp + t.p.amount)))
  | .n_unlock_to =>
    (slot t.p.to_acc).bind fun i =>
      (pthread_mutex_unlock me s i).map fun s' => ({ t with pc := .n_unlock_from }, s')
  | .n_unlock_from =>
    (slot t.p.from_acc).bind fun i =>
      (pthread_mutex_unlock me s i).map fun s' =>
        ({ t with pc := .finished, report := .completed }, s')
  -- deadlock avoidance
  | .loop_head =>
    if t.attempt < max_retries then
      if t.got_first = false then some ({ t with pc := .lock_first, attempt := t.attempt + 1 }, s)
      else some ({ t with pc := .trylock, attempt := t.attempt + 1 }, s)
    else some ({ t with pc := .after_loop }, s)
  | .lock_first =>
    (slot t.first).bind fun i =>
      (pthread_mutex_lock me s i).map fun s' =>
        ({ t with pc := .trylock, got_first := true }, s')
  | .trylock =>
    (slot t.second).map fun i =>
      match pthread_mutex_trylock me outsideFree s i with
      | (true, s') =>
        ({ t with pc := if t.got_first = true then .after_loop else .loop_head,
                  got_second := true }, s')
      | (false, s') => ({ t with pc := .release }, s')
  | .release =>
    (slot t.first).bind fun i =>
      (pthread_mutex_unlock me s i).map fun s' =>
        ({ t with pc := .backoff, got_first := false }, s')
  | .backoff => some ({ t with pc := .loop_head }, s)
  | .after_loop =>
    if t.got_first = true ∧ t.got_second = true then some ({ t with pc := .debit_rd }, s)
    else if t.got_first = true then some ({ t with pc := .abort_unlock }, s)
    else some ({ t with pc := .finished, report := .aborted }, s)
  | .debit_rd =>
    (slot t.p.from_acc).map fun i => ({ t with pc := .debit_wr, tmp := getBalance s i }, s)
  | .debit_wr =>
    (slot t.p.from_acc).map fun i =>
      ({ t with pc := .credit_rd }, setBalance s i (wrapLong (t.tmp - t.p.amount)))
  | .credit_rd =>
    (slot t.p.to_acc).map fun i => ({ t with pc := .credit_wr, tmp := getBalance s i }, s)
  | .credit_wr =>
    (slot t.p.to_acc).map fun i =>
      ({ t with pc := .unlock_second }, setBalance s i (wrapLong (t.tmp + t.p.amount)))
  | .unlock_second =>
    (slot t.second).bind fun i =>
      (pthread_mutex_unlock me s i).map fun s' => ({ t with pc := .unlock_first }, s')
  | .unlock_first =>
    (slot t.first).bind fun i =>
      (pthread_mutex_unlock me s i).map fun s' =>
        ({ t with pc := .finished, report := .completed }, s')
  | .abort_unlock =>
    (slot t.first).bind fun i =>
      (pthread_mutex_unlock me s i).map fun s' =>
        ({ t with pc := .finished, report := .aborted }, s')
  | .finished => none

/-! ## Workers running alone -/

/-- One step of a transfer worker (worker 0) that runs with no other modelled
worker; `oracle k` says whether the mutex tried in attempt number `k` (counted
from 0) is free of outside holders. -/
def soloStep (oracle : Nat → Bool) (c : TransferThread × Store) :
    Option (TransferThread × Store) :=
  c.1.step 0 (oracle (c.1.attempt - 1)) c.2

/-- Run of a worker alone for at most `n` steps, stopping early when it has no
next step. -/
def soloRun (oracle : Nat → Bool) : Nat → TransferThread × Store → TransferThread × Store
  | 0, c => c
  | n + 1, c =>
    match soloStep oracle c with
    | some c' => soloRun oracle n c'
    | none => c

/-- Call of `perform_transfer(&p)` run alone on store `s`: the worker's final
locals and the final store. -/
def perform_transfer (p : TransferParams) (oracle : Nat → Bool) (s : Store) :
    TransferThread × Store :=
  soloRun oracle 40 (TransferThread.start p, s)

/-- One step of an operation worker (worker 0) that runs alone. -/
def soloOpRun : Nat → OpThread × Store → OpThread × Store
  | 0, c => c
  | n + 1, c =>
    match c.1.step 0 c.2 with
    | some c' => soloOpRun n c'
    | none => c

/-- Call of `perform_operation(&p)` run alone on store `s`. -/
def perform_operation (p : OpParams) (s : Store) : OpThread × Store :=
  soloOpRun 8 (OpThread.start p, s)

/-! ## Populations of concurrent workers -/

/-- A worker thread created by `pthread_create` in `main`. -/
inductive Thread
  | op (t : OpThread)
  | transfer (t : TransferThread)
deriving DecidableEq

/-- One step of worker `me`. -/
def Thread.step (me : Nat) (outsideFree : Bool) (th : Thread) (s : Store) :
    Option (Thread × Store) :=
  match th with
  | .op t => (t.step me s).map fun r => (.op r.1, r.2)
  | .transfer t => (t.step me outsideFree s).map fun r => (.transfer r.1, r.2)

/-- The worker has reached `pthread_exit`. -/
def Thread.finished : Thread → Bool
  | .op t => decide (t.pc = .finished)
  | .transfer t => decide (t.pc = .finished)

/-- The shared store and the locals of every worker; worker `k` is `threads[k]`. -/
structure Sys where
  store : Store
  threads : List Thread

/-- Scheduling worker `me` for one step; `none` when it has no step to take
(it waits for a mutex, has finished, or does not exist). -/
def Sys.step (g : Sys) (me : Nat) (outsideFree : Bool) : Option Sys :=
  (g.threads[me]?).bind fun th =>
    (th.step me outsideFree g.store).map fun r =>
      { store := r.2, threads := g.threads.set me r.1 }

/-- Execution of a schedule: the list of workers that move, in order, each with
the outside-holder flag its `pthread_mutex_trylock` would see. -/
def Sys.exec : List (Nat × Bool) → Sys → Option Sys
  | [], g => some g
  | (me, fr) :: rest, g => (g.step me fr).bind (Sys.exec rest)

/-- Store after initialisation (lines 160-164) with the given balances: every
mutex free. -/
def initStore (bal : Fin NUM_ACCOUNTS → Int) : Store :=
  fun i => { id := (i : Nat), balance := bal i, mutex := none }

/-- A request the driver hands to `pthread_create`: the start routine is
`perform_operation` or `perform_transfer`, the argument its parameter block. -/
inductive Request
  | op (p : OpParams)
  | transfer (p : TransferParams)
deriving DecidableEq

/-- Worker made by `pthread_create(&t, NULL, routine, &p)`: it stands at the entry
of its start routine. The driver creates the worker for whatever request it is given. -/
def Request.spawn : Request → Thread
  | .op p => .op (OpThread.start p)
  | .transfer p => .transfer (TransferThread.start p)

/-- System right after the driver has initialised the accounts with the given
balances and created one worker per request. -/
def boot (bal : Fin NUM_ACCOUNTS → Int) (rs : List Request) : Sys :=
  { store := initStore bal, threads := rs.map Request.spawn }

/-! ## Functions used to state the results -/

/-- Store after the debit of `a` on `X` followed by the credit of `a` on `Y`. -/
def applyTransfer (s : Store) (X Y : Fin NUM_ACCOUNTS) (a : Int) : Store :=
  let s1 := setBalance s X (wrapLong (getBalance s X - a))
  setBalance s1 Y (wrapLong (getBalance s1 Y + a))

/-- Outcome of the non-blocking attempt number `k` (from 0) of a worker run alone
on free mutexes: it succeeds when no outside party holds the mutex and the mutex
is not the one the worker itself took as `first`. -/
def attemptOk (p : TransferParams) (oracle : Nat → Bool) (k : Nat) : Bool :=
  oracle k && decide (p.from_acc ≠ p.to_acc)

/-- Index of the first successful attempt among attempts `k, ..., k + d - 1`. -/
def firstOk (ok : Nat → Bool) (k : Nat) : Nat → Option Nat
  | 0 => none
  | d + 1 => if ok k = true then some k else firstOk ok (k + 1) d

/-- Lines 98-104 have been executed: `first` and `second` hold the lock order. -/
def TransferThread.ordered (t : TransferThread) : Prop :=
  t.first = (lockOrder t.p.from_acc t.p.to_acc).1 ∧
  t.second = (lockOrder t.p.from_acc t.p.to_acc).2

/-- Mutexes a transfer worker holds according to its program point and locals. -/
def TransferThread.holds (t : TransferThread) (i : Fin NUM_ACCOUNTS) : Prop :=
  match t.pc with
  | .n_sleep | .n_lock_to | .n_unlock_from => slot t.p.from_acc = some i
  | .n_debit_rd | .n_debit_wr | .n_credit_rd | .n_credit_wr | .n_unlock_to =>
    slot t.p.from_acc = some i ∨ slot t.p.to_acc = some i
  | .trylock | .release | .unlock_first | .abort_unlock => slot t.first = some i
  | .after_loop => t.got_second = true ∧ (slot t.first = some i ∨ slot t.second = some i)
  | .debit_rd | .debit_wr | .credit_rd | .credit_wr | .unlock_second =>
    slot t.first = some i ∨ slot t.second = some i
  | .start | .n_lock_from | .loop_head | .lock_first | .backoff | .finished => False

/-- Relation between the program point of a transfer worker and its locals. -/
def TransferThread.ok (t : TransferThread) : Prop :=
  match t.pc with
  | .start | .n_lock_from | .n_sleep | .n_lock_to | .n_unlock_from | .finished => True
  | .n_debit_rd | .n_debit_wr | .n_credit_rd | .n_credit_wr | .n_unlock_to =>
    slot t.p.from_acc ≠ slot t.p.to_acc
  | .loop_head | .backoff =>
    t.got_first = false ∧ t.got_second = false ∧ t.attempt ≤ max_retries
  | .lock_first =>
    t.got_first = false ∧ t.got_second = false ∧ 1 ≤ t.attempt ∧ t.attempt ≤ max_retries
  | .trylock | .release =>
    t.got_first = true ∧ t.got_second = false ∧ 1 ≤ t.attempt ∧ t.attempt ≤ max_retries
  | .after_loop =>
    t.got_first = t.got_second ∧ (t.got_second = true → slot t.first ≠ slot t.second) ∧
      t.attempt ≤ max_retries
  | .debit_rd | .debit_wr | .credit_rd | .credit_wr | .unlock_second =>
    slot t.first ≠ slot t.second ∧ t.attempt ≤ max_retries
  | .unlock_first => t.attempt ≤ max_retries
  | .abort_unlock => False

/-- Mutexes an operation worker holds according to its program point. -/
def OpThread.holds (t : OpThread) (i : Fin NUM_ACCOUNTS) : Prop :=
  match t.pc with
  | .read | .sleep | .write | .unlock => t.p.use_mutex ≠ 0 ∧ slot t.p.acc_id = some i
  | .start | .lock | .finished => False

/-- Relation between the program point of an operation worker and its request. -/
def OpThread.ok (t : OpThread) : Prop :=
  match t.pc with
  | .lock | .unlock => t.p.use_mutex ≠ 0
  | _ => True

/-- Mutexes a worker holds according to its own state. -/
def Thread.holds : Thread → Fin NUM_ACCOUNTS → Prop
  | .op t => t.holds
  | .transfer t => t.holds

/-- Relation between a worker's program point and its locals. -/
def Thread.ok : Thread → Prop
  | .op t => t.ok
  | .transfer t => t.ok

/-- Lock invariant of a population: every worker's locals are consistent, worker
`k` holds exactly the mutexes whose owner is `k`, and every owner is a worker. -/
def Sys.lockInv (g : Sys) : Prop :=
  (∀ k th, g.threads[k]? = some th → th.ok ∧ ∀ i, th.holds i ↔ (g.store i).mutex = some k) ∧
  (∀ i k, (g.store i).mutex = some k → k < g.threads.length)

/-- Program points of the naive branch (lines 79-94). -/
def TPc.naive : TPc → Bool
  | .n_lock_from | .n_sleep | .n_lock_to | .n_debit_rd | .n_debit_wr | .n_credit_rd
  | .n_credit_wr | .n_unlock_to | .n_unlock_from => true
  | _ => false

/-- Program points of the deadlock-avoiding branch (lines 109-148). -/
def TPc.avoidance : TPc → Bool
  | .loop_head | .lock_first | .trylock | .release | .backoff | .after_loop | .debit_rd
  | .debit_wr | .credit_rd | .credit_wr | .unlock_second | .unlock_first | .abort_unlock => true
  | _ => false

/-- The branch a transfer worker is in agrees with its mode flag, in the
deadlock-avoiding branch `first` and `second` hold the lock order, the attempt
counter is within the retry budget, and a finished worker has printed its report. -/
def TransferThread.wf (t : TransferThread) : Prop :=
  (t.pc.naive = true → t.p.use_deadlock_avoidance = 0) ∧
  (t.pc.avoidance = true → t.p.use_deadlock_avoidance ≠ 0 ∧ t.ordered) ∧
  t.attempt ≤ max_retries ∧
  (t.pc = .finished → t.report = .completed ∨ t.report = .aborted)

/-- Well-formedness of a worker's locals with respect to its request. -/
def Thread.wf : Thread → Prop
  | .op _ => True
  | .transfer t => t.wf

/-- The request a worker was created for. -/
def Thread.request : Thread → Request
  | .op t => .op t.p
  | .transfer t => .transfer t.p

/-- Invariant of a population created for the requests `rs`: the lock invariant,
and worker `k` is a well-formed worker for request `rs[k]`. -/
def Sys.inv (rs : List Request) (g : Sys) : Prop :=
  g.lockInv ∧ g.threads.length = rs.length ∧
    ∀ (k : Nat) (th : Thread), g.threads[k]? = some th → th.wf ∧ rs[k]? = some th.request

/-- Program points between the read and the write of an operation's
read-modify-write (lines 52-55). -/
def OpPc.critical : OpPc → Bool
  | .read | .sleep | .write => true
  | _ => false

/-- Program points at which a transfer reads or writes balances: the debit and the
credit (lines 86-87 and 137-138) and the points `n_unlock_to` and `unlock_second`,
which begin with the print of the two new balances (lines 88-89 and 139-140). -/
def TPc.mutating : TPc → Bool
  | .n_debit_rd | .n_debit_wr | .n_credit_rd | .n_credit_wr | .n_unlock_to
  | .debit_rd | .debit_wr | .credit_rd | .credit_wr | .unlock_second => true
  | _ => false

/-- The worker is a `perform_operation` worker with `use_mutex` clear. -/
def Thread.unsynchronized : Thread → Prop
  | .op t => t.p.use_mutex = 0
  | .transfer _ => False

/-- Bound on the number of steps a `perform_operation` worker has left. -/
def OpThread.fuel (t : OpThread) : Nat :=
  match t.pc with
  | .start => 6
  | .lock => 5
  | .read => 4
  | .sleep => 3
  | .write => 2
  | .unlock => 1
  | .finished => 0

/-- Bound on the number of steps a `perform_transfer` worker has left: each of
the remaining attempts costs at most six steps. -/
def TransferThread.fuel (t : TransferThread) : Nat :=
  match t.pc with
  | .start => 60
  | .n_lock_from => 9
  | .n_sleep => 8
  | .n_lock_to => 7
  | .n_debit_rd => 6
  | .n_debit_wr => 5
  | .n_credit_rd => 4
  | .n_credit_wr => 3
  | .n_unlock_to => 2
  | .n_unlock_from => 1
  | .loop_head => 6 * (max_retries - t.attempt) + 20
  | .lock_first => 6 * (max_retries - t.attempt) + 25
  | .trylock => 6 * (max_retries - t.attempt) + 24
  | .release => 6 * (max_retries - t.attempt) + 23
  | .backoff => 6 * (max_retries - t.attempt) + 22
  | .after_loop => 6 * (max_retries - t.attempt) + 10
  | .debit_rd => 9
  | .debit_wr => 8
  | .credit_rd => 7
  | .credit_wr => 6
  | .unlock_second => 5
  | .unlock_first => 4
  | .abort_unlock => 4
  | .finished => 0

/-- Bound on the number of steps a worker has left. -/
def Thread.fuel : Thread → Nat
  | .op t => t.fuel
  | .transfer t => t.fuel

/-- Bound on the number of steps the population has left. -/
def Sys.fuel (g : Sys) : Nat := (g.threads.map Thread.fuel).sum

/-- Requests whose account ids are within bounds and whose transfers run in
deadlock-avoiding mode. -/
def Request.safe : Request → Prop
  | .op p => (slot p.acc_id).isSome = true
  | .transfer p =>
    p.use_deadlock_avoidance ≠ 0 ∧ (slot p.from_acc).isSome = true ∧
      (slot p.to_acc).isSome = true

/-- Account id whose mutex the next step of the worker acquires with the
blocking `pthread_mutex_lock`, if that is what the next step is. -/
def Thread.wants : Thread → Option Int
  | .op t => if t.pc = .lock then some t.p.acc_id else none
  | .transfer t =>
    match t.pc with
    | .n_lock_from => some t.p.from_acc
    | .n_lock_to => some t.p.to_acc
    | .lock_first => some t.first
    | _ => none

/-- Worker `k` waits for worker `j`: the next step of `k` is a blocking
acquisition of a mutex that `j` holds. -/
def Sys.waitsFor (g : Sys) (k j : Nat) : Prop :=
  ∃ th a i, g.threads[k]? = some th ∧ th.wants = some a ∧ slot a = some i ∧
    (g.store i).mutex = some j

/-- A circular wait: a cycle of workers, each waiting for a mutex held by the next. -/
def Sys.circularWait (g : Sys) : Prop := ∃ k, Relation.TransGen g.waitsFor k k

/-- Every worker of the population has reached `pthread_exit`. -/
def Sys.allFinished (g : Sys) : Prop := ∀ th ∈ g.threads, th.finished = true

instance (g : Sys) : Decidable g.allFinished := by
  unfold Sys.allFinished; infer_instance

/-- Phase 4 requests of `main` (lines 252-253). -/
def tp3 : TransferParams :=
  { thread_id := 3, from_acc := 0, to_acc := 1, amount := 30, use_deadlock_avoidance := 1 }

/-- Second Phase 4 request of `main`. -/
def tp4 : TransferParams :=
  { thread_id := 4, from_acc := 1, to_acc := 0, amount := 20, use_deadlock_avoidance := 1 }

/-- Amount an operation worker has still to apply to account `i`: its amount
until it has written the new balance, then 0. -/
def OpThread.pending (i : Fin NUM_ACCOUNTS) (t : OpThread) : Int :=
  if slot t.p.acc_id = some i ∧ t.pc ≠ .unlock ∧ t.pc ≠ .finished then t.p.amount else 0

/-- Amount a worker has still to apply to account `i` through `perform_operation`. -/
def Thread.pending (i : Fin NUM_ACCOUNTS) : Thread → Int
  | .op t => t.pending i
  | .transfer _ => 0

/-- Sum of the amounts the operation workers have still to apply to account `i`. -/
def Sys.pending (g : Sys) (i : Fin NUM_ACCOUNTS) : Int :=
  (g.threads.map (Thread.pending i)).sum

/-- Sum of the amounts of the operation requests that target account `i`. -/
def amountOn (ops : List OpParams) (i : Fin NUM_ACCOUNTS) : Int :=
  (ops.map fun p => if slot p.acc_id = some i then p.amount else 0).sum

/-- Invariant of a population of synchronized operations created for `ops` on
initial balances `bal`: every balance is a `long`; the balance of an account plus
the amounts still to be applied to it equals, modulo 2^64, its initial balance plus
all amounts requested on it; a worker between its read and its write has read the
current balance. -/
def Sys.opInv (bal : Fin NUM_ACCOUNTS → Int) (ops : List OpParams) (g : Sys) : Prop :=
  (∀ i, isLong (g.store i).balance) ∧
  (∀ i, wrapLong ((g.store i).balance + g.pending i) = wrapLong (bal i + amountOn ops i)) ∧
  (∀ (k : Nat) (t : OpThread) (i : Fin NUM_ACCOUNTS), g.threads[k]? = some (Thread.op t) →
    (t.pc = .sleep ∨ t.pc = .write) → slot t.p.acc_id = some i →
      t.old_balance = (g.store i).balance)

/-- Phase 2 requests of `main` (lines 195-198): for every account a deposit of 50
and a withdrawal of 50, both with the mutex. -/
def phase2Ops : List OpParams :=
  [ ⟨3, 0, 50, 1⟩, ⟨4, 0, -50, 1⟩, ⟨5, 1, 50, 1⟩, ⟨6, 1, -50, 1⟩, ⟨7, 2, 50, 1⟩,
    ⟨8, 2, -50, 1⟩, ⟨9, 3, 50, 1⟩, ⟨10, 3, -50, 1⟩, ⟨11, 4, 50, 1⟩, ⟨12, 4, -50, 1⟩ ]

/-- Store with `LONG_MIN` on account 0 and 100 on the others, every mutex free. -/
def lowStore : Store := initStore fun i => if i = 0 then LONG_MIN else 100

/-- Store with `LONG_MAX` on account 0 and 100 on the others, every mutex free. -/
def highStore : Store := initStore fun i => if i = 0 then LONG_MAX else 100

/-- Phase 3 requests of `main` (lines 228-229): the naive runner. -/
def tp1 : TransferParams :=
  { thread_id := 1, from_acc := 0, to_acc := 1, amount := 30, use_deadlock_avoidance := 0 }

/-- Second Phase 3 request of `main`. -/
def tp2 : TransferParams :=
  { thread_id := 2, from_acc := 1, to_acc := 0, amount := 20, use_deadlock_avoidance := 0 }

/-- The worker has written the debited balance of `from` (lines 86 and 137). -/
def TransferThread.debited (t : TransferThread) : Bool :=
  match t.pc with
  | .n_credit_rd | .n_credit_wr | .n_unlock_to | .n_unlock_from
  | .credit_rd | .credit_wr | .unlock_second | .unlock_first => true
  | .finished => decide (t.report = .completed)
  | _ => false

/-- The worker has written the credited balance of `to` (lines 87 and 138). -/
def TransferThread.credited (t : TransferThread) : Bool :=
  match t.pc with
  | .n_unlock_to | .n_unlock_from | .unlock_second | .unlock_first => true
  | .finished => decide (t.report = .completed)
  | _ => false

/-- Amount a transfer worker has applied to account `i` so far. -/
def TransferThread.applied (i : Fin NUM_ACCOUNTS) (t : TransferThread) : Int :=
  (if t.debited = true ∧ slot t.p.from_acc = some i then -t.p.amount else 0) +
  (if t.credited = true ∧ slot t.p.to_acc = some i then t.p.amount else 0)

/-- Amount a worker has applied to account `i` through `perform_transfer`. -/
def Thread.applied (i : Fin NUM_ACCOUNTS) : Thread → Int
  | .op _ => 0
  | .transfer t => t.applied i

/-- Sum of the amounts the transfer workers have applied to account `i` so far. -/
def Sys.applied (g : Sys) (i : Fin NUM_ACCOUNTS) : Int :=
  (g.threads.map (Thread.applied i)).sum

/-- Invariant of a population of transfers on initial balances `bal`: every balance
is its initial value plus the amounts applied to the account so far, as a `long`;
a worker between the read and the write of its debit, or of its credit, has read
the current balance. -/
def Sys.transferInv (bal : Fin NUM_ACCOUNTS → Int) (g : Sys) : Prop :=
  (∀ i, (g.store i).balance = wrapLong (bal i + g.applied i)) ∧
  (∀ (k : Nat) (t : TransferThread) (i : Fin NUM_ACCOUNTS),
    g.threads[k]? = some (Thread.transfer t) →
    ((t.pc = .debit_wr ∨ t.pc = .n_debit_wr) → slot t.p.from_acc = some i →
      t.tmp = (g.store i).balance) ∧
    ((t.pc = .credit_wr ∨ t.pc = .n_credit_wr) → slot t.p.to_acc = some i →
      t.tmp = (g.store i).balance))

/-! ## The recovery of `main` after Phase 3 (lines 238-255) -/

/-- Phase 3 of `main` right after line 232: accounts 0 and 1 hold 100 (lines
225-226; the other accounts hold 100 since Phase 2, whose workers were all joined),
every mutex is free, and the two naive workers `td1` (worker 0) and `td2`
(worker 1) have been created. -/
def phase3 : Sys :=
  boot (fun _ => 100) [Request.transfer tp1, Request.transfer tp2]

/-- The process from line 238 on: the store and the workers, the workers for which
a cancellation request is pending, and the workers a request has ended. -/
structure Proc where
  sys : Sys
  cancel : List Nat
  ended : List Nat

/-- `pthread_cancel(td)` for worker `k` (lines 238-239): the request is recorded.
Cancellation is deferred: it ends the worker only when the worker calls a function
that is a cancellation point. -/
def pthread_cancel (m : Proc) (k : Nat) : Proc :=
  { m with cancel := k :: m.cancel }

/-- The next call of the worker is `usleep` (lines 53, 81, 129), the cancellation
point among the calls of the two start routines. `pthread_mutex_lock`,
`pthread_mutex_trylock` and `pthread_mutex_unlock` are not cancellation points;
the prints are not counted as such (they are cancellation points only when the
output is flushed by the call). -/
def Thread.atCancellationPoint : Thread → Bool
  | .op t => decide (t.pc = .sleep)
  | .transfer t => decide (t.pc = .n_sleep ∨ t.pc = .backoff)

/-- `pthread_mutex_destroy(&accounts[i].mutex)` followed by
`pthread_mutex_init(&accounts[i].mutex, NULL)` (lines 240-243): the mutex is free
afterwards, whoever held it before. -/
def pthread_mutex_init (s : Store) (i : Fin NUM_ACCOUNTS) : Store :=
  Function.update s i { s i with mutex := none }

/-- Lines 238-255 of `main`, entered with the Phase 3 workers in state `g`: both
workers are sent a cancellation request and are not joined, the mutexes of accounts
0 and 1 are destroyed and initialised again, both balances are set to 100, and the
two deadlock-avoiding workers of Phase 4 are created (workers 2 and 3). -/
def main_recovery (g : Sys) : Proc :=
  let m := pthread_cancel (pthread_cancel { sys := g, cancel := [], ended := [] } 0) 1
  let s := pthread_mutex_init (pthread_mutex_init m.sys.store 0) 1
  let s := setBalance (setBalance s 0 100) 1 100
  { m with sys := { store := s,
                    threads := m.sys.threads ++
                      [(Request.transfer tp3).spawn, (Request.transfer tp4).spawn] } }

/-- Scheduling worker `me` for one step in the process: a worker ended by a
cancellation request has no step; a worker with a pending request that is about to
call `usleep` is ended there, releasing nothing; any other worker takes its step. -/
def Proc.step (m : Proc) (me : Nat) (outsideFree : Bool) : Option Proc :=
  if me ∈ m.ended then none
  else if me ∈ m.cancel ∧ (m.sys.threads[me]?).any Thread.atCancellationPoint = true then
    some { m with ended := me :: m.ended }
  else (m.sys.step me outsideFree).map fun g => { m with sys := g }

/-- Execution of a schedule in the process. -/
def Proc.exec : List (Nat × Bool) → Proc → Option Proc
  | [], m => some m
  | (me, fr) :: rest, m => (m.step me fr).bind (Proc.exec rest)

/-! ## The deadlock-avoiding runner run alone: one iteration and the whole loop -/

theorem soloRun_add (oracle : Nat → Bool) (a b : Nat) (c : TransferThread × Store) :
    soloRun oracle (a + b) c = soloRun oracle b (soloRun oracle a c) := by
  induction a generalizing c with
  | zero => simp [soloRun]
  | succ a ih =>
    rw [Nat.succ_add]
    cases hstep : soloStep oracle c with
    | some c' => simp [soloRun, hstep, ih]
    | none =>
      cases b with
      | zero => simp [soloRun, hstep]
      | succ b => simp [soloRun, hstep]

theorem account_mutex_eta (a : Account) (h : a.mutex = none) :
    ({ id := a.id, balance := a.balance, mutex := none } : Account) = a := by
  cases a; simp_all

theorem solo_fail_iter (oracle : Nat → Bool) (t : TransferThread) (s : Store)
    (F S : Fin NUM_ACCOUNTS)
    (hpc : t.pc = .loop_head) (hg : t.got_first = false) (hk : t.attempt < 5)
    (hF : slot t.first = some F) (hS : slot t.second = some S)
    (hfree : (s F).mutex = none)
    (hfail : ¬ (oracle t.attempt = true ∧ (s S).mutex = none ∧ F ≠ S)) :
    soloRun oracle 5 (t, s) = ({ t with attempt := t.attempt + 1 }, s) := by
  obtain ⟨p, pc, first, second, gf, gs, k, tmp, rep⟩ := t
  simp only at hpc hg hk hF hS hfail
  subst hpc hg
  by_cases hFS : F = S
  · subst hFS
    simp [soloRun, soloStep, TransferThread.step, max_retries, hk, hF, hS, pthread_mutex_lock,
      pthread_mutex_trylock, pthread_mutex_unlock, hfree]
    exact account_mutex_eta _ hfree
  · have hne : S ≠ F := fun h => hFS h.symm
    have hfail' : ¬ ((s S).mutex = none ∧ oracle k = true) := by
      intro h; exact hfail ⟨h.2, h.1, hFS⟩
    simp [soloRun, soloStep, TransferThread.step, max_retries, hk, hF, hS, pthread_mutex_lock,
      pthread_mutex_trylock, pthread_mutex_unlock, hfree, Function.update_noteq hne, hfail']
    exact account_mutex_eta _ hfree

theorem solo_success_iter (oracle : Nat → Bool) (t : TransferThread) (s : Store)
    (X Y F S : Fin NUM_ACCOUNTS)
    (hpc : t.pc = .loop_head) (hg : t.got_first = false) (hk : t.attempt < 5)
    (hX : slot t.p.from_acc = some X) (hY : slot t.p.to_acc = some Y)
    (hF : slot t.first = some F) (hS : slot t.second = some S)
    (hFS : F ≠ S) (hXY : (F = X ∧ S = Y) ∨ (F = Y ∧ S = X))
    (hfreeF : (s F).mutex = none) (hfreeS : (s S).mutex = none)
    (hok : oracle t.attempt = true) :
    soloRun oracle 10 (t, s) =
      ({ t with pc := .finished, attempt := t.attempt + 1, got_first := true,
                got_second := true, tmp := getBalance s Y, report := .completed },
        applyTransfer s X Y t.p.amount) := by
  obtain ⟨p, pc, first, second, gf, gs, k, tmp, rep⟩ := t
  simp only at hpc hg hk hF hS hok hX hY
  subst hpc hg
  have hne : S ≠ F := fun h => hFS h.symm
  rcases hXY with ⟨h1, h2⟩ | ⟨h1, h2⟩
  · subst h1 h2
    simp [soloRun, soloStep, TransferThread.step, max_retries, hk, hF, hS, hX, hY,
      pthread_mutex_lock, pthread_mutex_trylock, pthread_mutex_unlock, hfreeF, hfreeS,
      Function.update_noteq hne, Function.update_noteq hFS, hok, getBalance, setBalance,
      applyTransfer]
    funext i
    simp only [Function.update_apply]
    split_ifs <;> simp_all
  · subst h1 h2
    simp [soloRun, soloStep, TransferThread.step, max_retries, hk, hF, hS, hX, hY,
      pthread_mutex_lock, pthread_mutex_trylock, pthread_mutex_unlock, hfreeF, hfreeS,
      Function.update_noteq hne, Function.update_noteq hFS, hok, getBalance, setBalance,
      applyTransfer]
    funext i
    simp only [Function.update_apply]
    split_ifs <;> simp_all

theorem slot_inj {a b : Int} {X : Fin NUM_ACCOUNTS} (ha : slot a = some X) (hb : slot b = some X) :
    a = b := by
  unfold slot at ha hb
  split at ha <;> split at hb <;> simp_all
  have h1 := congrArg Fin.val ha
  have h2 := congrArg Fin.val hb
  simp at h1 h2
  omega

theorem slot_lockOrder {a b : Int} {X Y : Fin NUM_ACCOUNTS} (ha : slot a = some X)
    (hb : slot b = some Y) :
    (slot (lockOrder a b).1 = some X ∧ slot (lockOrder a b).2 = some Y) ∨
    (slot (lockOrder a b).1 = some Y ∧ slot (lockOrder a b).2 = some X) := by
  unfold lockOrder
  split
  · right; exact ⟨hb, ha⟩
  · left; exact ⟨ha, hb⟩

theorem soloRun_finished (oracle : Nat → Bool) (n : Nat) (c : TransferThread × Store)
    (h : c.1.pc = .finished) : soloRun oracle n c = c := by
  cases n with
  | zero => rfl
  | succ n => simp [soloRun, soloStep, TransferThread.step, h]

theorem solo_loop (oracle : Nat → Bool) (p : TransferParams) (s : Store)
    (X Y : Fin NUM_ACCOUNTS) (hX : slot p.from_acc = some X) (hY : slot p.to_acc = some Y)
    (hfreeX : (s X).mutex = none) (hfreeY : (s Y).mutex = none) :
    ∀ (d : Nat) (t : TransferThread), t.attempt + d = 5 → t.pc = .loop_head → t.p = p →
      t.got_first = false → t.got_second = false →
      t.first = (lockOrder p.from_acc p.to_acc).1 → t.second = (lockOrder p.from_acc p.to_acc).2 →
      soloRun oracle (5 * d + 10) (t, s) =
        match firstOk (attemptOk p oracle) t.attempt d with
        | some j =>
          ({ t with pc := .finished, attempt := j + 1, got_first := true, got_second := true,
                    tmp := getBalance s Y, report := .completed },
            applyTransfer s X Y p.amount)
        | none => ({ t with pc := .finished, attempt := 5, report := .aborted }, s) := by
  intro d
  induction d with
  | zero =>
    intro t hk hpc hp hg1 hg2 _ _
    obtain ⟨p', pc, first, second, gf, gs, k, tmp, rep⟩ := t
    simp only at hk hpc hp hg1 hg2
    subst hpc hp hg1 hg2
    simp at hk
    subst hk
    simp [soloRun, soloStep, TransferThread.step, max_retries, firstOk]
  | succ d ih =>
    intro t hk hpc hp hg1 hg2 hf hs
    have hlt : t.attempt < 5 := by omega
    have hXY : X = Y ↔ p.from_acc = p.to_acc := by
      constructor
      · intro h; subst h; exact slot_inj hX hY
      · intro h; rw [h, hY] at hX; exact (Option.some.inj hX).symm
    obtain ⟨F, S, hF, hS, hFS, hfreeF, hfreeS⟩ :
        ∃ F S, slot t.first = some F ∧ slot t.second = some S ∧
          ((F = X ∧ S = Y) ∨ (F = Y ∧ S = X)) ∧ (s F).mutex = none ∧ (s S).mutex = none := by
      rcases slot_lockOrder hX hY with ⟨h1, h2⟩ | ⟨h1, h2⟩
      · exact ⟨X, Y, hf ▸ h1, hs ▸ h2, Or.inl ⟨rfl, rfl⟩, hfreeX, hfreeY⟩
      · exact ⟨Y, X, hf ▸ h1, hs ▸ h2, Or.inr ⟨rfl, rfl⟩, hfreeY, hfreeX⟩
    have hFSeq : F = S ↔ p.from_acc = p.to_acc := by
      rcases hFS with ⟨h1, h2⟩ | ⟨h1, h2⟩ <;> subst h1 h2
      · exact hXY
      · exact ⟨fun h => hXY.mp h.symm, fun h => (hXY.mpr h).symm⟩
    by_cases hok : attemptOk p oracle t.attempt = true
    · have hor : oracle t.attempt = true ∧ p.from_acc ≠ p.to_acc := by
        simpa [attemptOk] using hok
      have hne : F ≠ S := fun h => hor.2 (hFSeq.mp h)
      have e : 5 * (d + 1) + 10 = 10 + (5 * d + 5) := by omega
      rw [e, soloRun_add, solo_success_iter oracle t s X Y F S hpc hg1 hlt (hp ▸ hX) (hp ▸ hY)
        hF hS hne hFS hfreeF hfreeS hor.1, soloRun_finished _ _ _ rfl]
      simp [firstOk, hok, hp]
    · have hfail : ¬ (oracle t.attempt = true ∧ (s S).mutex = none ∧ F ≠ S) := by
        intro h
        apply hok
        simp [attemptOk, h.1]
        exact fun h' => h.2.2 (hFSeq.mpr h')
      have e : 5 * (d + 1) + 10 = 5 + (5 * d + 10) := by omega
      rw [e, soloRun_add, solo_fail_iter oracle t s F S hpc hg1 hlt hF hS hfreeF hfail,
        ih { t with attempt := t.attempt + 1 } (by simp; omega) hpc hp hg1 hg2 hf hs]
      simp [firstOk, hok]

/-- Result of a deadlock-avoiding `perform_transfer(&p)` run alone. -/
theorem perform_transfer_avoid (oracle : Nat → Bool) (p : TransferParams) (s : Store)
    (X Y : Fin NUM_ACCOUNTS) (hX : slot p.from_acc = some X) (hY : slot p.to_acc = some Y)
    (hav : p.use_deadlock_avoidance ≠ 0)
    (hfreeX : (s X).mutex = none) (hfreeY : (s Y).mutex = none) :
    perform_transfer p oracle s =
      match firstOk (attemptOk p oracle) 0 5 with
      | some j =>
        ({ p := p, pc := .finished, first := (lockOrder p.from_acc p.to_acc).1,
           second := (lockOrder p.from_acc p.to_acc).2, attempt := j + 1, got_first := true,
           got_second := true, tmp := getBalance s Y, report := .completed },
          applyTransfer s X Y p.amount)
      | none =>
        ({ p := p, pc := .finished, first := (lockOrder p.from_acc p.to_acc).1,
           second := (lockOrder p.from_acc p.to_acc).2, attempt := 5, got_first := false,
           got_second := false, tmp := 0, report := .aborted }, s) := by
  unfold perform_transfer
  have e : 40 = 1 + ((5 * 5 + 10) + 4) := by norm_num
  rw [e, soloRun_add, soloRun_add]
  have h1 : soloRun oracle 1 (TransferThread.start p, s) =
      ({ p := p, pc := .loop_head, first := (lockOrder p.from_acc p.to_acc).1,
         second := (lockOrder p.from_acc p.to_acc).2, attempt := 0, got_first := false,
         got_second := false, tmp := 0, report := .silent }, s) := by
    simp [soloRun, soloStep, TransferThread.step, TransferThread.start, hav]
  rw [h1, solo_loop oracle p s X Y hX hY hfreeX hfreeY 5 _ rfl rfl rfl rfl rfl rfl rfl]
  cases firstOk (attemptOk p oracle) 0 5 with
  | some j => simp [soloRun_finished]
  | none => simp [soloRun_finished]

/-! ## The lock invariant -/

theorem TransferThread.transfer_step_own (me : Nat) (fr : Bool) (t t' : TransferThread)
    (s s' : Store)
    (hok : t.ok) (hown : ∀ i, t.holds i ↔ (s i).mutex = some me)
    (h : t.step me fr s = some (t', s')) :
    t'.ok ∧ (∀ i, t'.holds i ↔ (s' i).mutex = some me) ∧ t'.p = t.p ∧
      (∀ i u, u ≠ me → ((s' i).mutex = some u ↔ (s i).mutex = some u)) := by
  obtain ⟨p, pc, first, second, gf, gs, k, tmp, rep⟩ := t
  cases pc <;>
    simp [TransferThread.step,
      pthread_mutex_lock, pthread_mutex_unlock, pthread_mutex_trylock, setBalance, getBalance,
      Option.bind_eq_some, Option.map_eq_some'] at h
  case trylock =>
    obtain ⟨a, ha, h⟩ := h
    by_cases hc : (s a).mutex = none ∧ fr = true
    · simp [hc] at h
      obtain ⟨rfl, rfl⟩ := h
      simp only [TransferThread.ok, TransferThread.holds] at hok hown
      have hfa : slot first ≠ some a := fun hf => by
        have := (hown a).mp hf
        rw [hc.1] at this
        exact absurd this (by simp)
      refine ⟨?_, fun i => ?_, rfl, fun i u hu => ?_⟩
      · simp [TransferThread.ok, hok, ha]
        exact hfa
      · have h1 := hown i
        by_cases hi : i = a
        · subst hi; simp [TransferThread.holds, hok, ha]
        · have hi' : a ≠ i := fun e => hi e.symm
          simp [TransferThread.holds, hok, ha, hi, hi', Function.update_apply, h1]
      · by_cases hi : i = a
        · subst hi; simp [hc.1, hu]; exact fun e => hu e.symm
        · simp [Function.update_apply, hi]
    · simp [hc] at h
      obtain ⟨rfl, rfl⟩ := h
      simp only [TransferThread.ok, TransferThread.holds] at hok hown
      refine ⟨?_, fun i => ?_, rfl, fun i u hu => ?_⟩
      · simpa [TransferThread.ok] using hok
      · simpa [TransferThread.holds] using hown i
      · rfl
  all_goals try split_ifs at h
  all_goals try simp only [Option.some.injEq, Prod.mk.injEq] at h
  all_goals first
    | (obtain ⟨rfl, rfl⟩ := h)
    | (obtain ⟨a, ha, rfl, rfl⟩ := h)
    | (obtain ⟨a, ha, hm, rfl, rfl⟩ := h)
  all_goals simp only [TransferThread.ok, TransferThread.holds] at hok hown
  all_goals refine ⟨?_, fun i => ?_, rfl, fun i u hu => ?_⟩
  all_goals try have h1 := hown i
  all_goals try have h2 := hown a
  all_goals clear hown
  all_goals
    simp only [TransferThread.ok, TransferThread.holds,
      Function.update_apply, apply_ite Account.mutex, max_retries] at *
  all_goals try (first | (by_cases hi : i = a) | skip)
  all_goals try subst hi
  all_goals try have hi' : ¬ a = i := fun e => hi e.symm
  all_goals try simp_all
  all_goals try omega

theorem OpThread.op_step_own (me : Nat) (t t' : OpThread) (s s' : Store)
    (hok : t.ok) (hown : ∀ i, t.holds i ↔ (s i).mutex = some me)
    (h : t.step me s = some (t', s')) :
    t'.ok ∧ (∀ i, t'.holds i ↔ (s' i).mutex = some me) ∧ t'.p = t.p ∧
      (∀ i u, u ≠ me → ((s' i).mutex = some u ↔ (s i).mutex = some u)) := by
  obtain ⟨p, pc, ob, nb⟩ := t
  cases pc <;>
    simp [OpThread.step,
      pthread_mutex_lock, pthread_mutex_unlock, setBalance, getBalance,
      Option.bind_eq_some, Option.map_eq_some'] at h
  all_goals try split_ifs at h
  all_goals try simp only [Option.some.injEq, Prod.mk.injEq] at h
  all_goals first
    | (obtain ⟨rfl, rfl⟩ := h)
    | (obtain ⟨a, ha, rfl, rfl⟩ := h)
    | (obtain ⟨a, ha, hm, rfl, rfl⟩ := h)
  all_goals simp only [OpThread.ok, OpThread.holds] at hok hown
  all_goals refine ⟨?_, fun i => ?_, rfl, fun i u hu => ?_⟩
  all_goals try have h1 := hown i
  all_goals try have h2 := hown a
  all_goals clear hown
  all_goals
    simp only [OpThread.ok, OpThread.holds,
      Function.update_apply, apply_ite Account.mutex] at *
  all_goals try (first | (by_cases hi : i = a) | skip)
  all_goals try subst hi
  all_goals try have hi' : ¬ a = i := fun e => hi e.symm
  all_goals try simp_all
  all_goals try omega

theorem Thread.step_own (me : Nat) (fr : Bool) (th th' : Thread) (s s' : Store)
    (hok : th.ok) (hown : ∀ i, th.holds i ↔ (s i).mutex = some me)
    (h : th.step me fr s = some (th', s')) :
    th'.ok ∧ (∀ i, th'.holds i ↔ (s' i).mutex = some me) ∧
      (∀ i u, u ≠ me → ((s' i).mutex = some u ↔ (s i).mutex = some u)) := by
  cases th with
  | op t =>
    simp only [Thread.step, Option.map_eq_some'] at h
    obtain ⟨⟨t', s1⟩, hstep, heq⟩ := h
    simp only [Prod.mk.injEq] at heq
    obtain ⟨rfl, rfl⟩ := heq
    obtain ⟨h1, h2, _, h4⟩ := OpThread.op_step_own me t t' s s1 hok hown hstep
    exact ⟨h1, h2, h4⟩
  | transfer t =>
    simp only [Thread.step, Option.map_eq_some'] at h
    obtain ⟨⟨t', s1⟩, hstep, heq⟩ := h
    simp only [Prod.mk.injEq] at heq
    obtain ⟨rfl, rfl⟩ := heq
    obtain ⟨h1, h2, _, h4⟩ := TransferThread.transfer_step_own me fr t t' s s1 hok hown hstep
    exact ⟨h1, h2, h4⟩

theorem Sys.step_inv {g g' : Sys} {me : Nat} {fr : Bool}
    (h : g.step me fr = some g') :
    ∃ th th', g.threads[me]? = some th ∧ th.step me fr g.store = some (th', g'.store) ∧
      g'.threads = g.threads.set me th' := by
  simp only [Sys.step, Option.bind_eq_some, Option.map_eq_some'] at h
  obtain ⟨th, hth, ⟨th', s'⟩, hstep, rfl⟩ := h
  exact ⟨th, th', hth, hstep, rfl⟩

theorem Sys.threads_step {g g' : Sys} {me : Nat} {fr : Bool} (h : g.step me fr = some g')
    (k : Nat) (hk : k ≠ me) : g'.threads[k]? = g.threads[k]? := by
  obtain ⟨th, th', _, _, hset⟩ := Sys.step_inv h
  rw [hset, List.getElem?_set_ne (fun e => hk e.symm)]

theorem Sys.lockInv_step {g g' : Sys} {me : Nat} {fr : Bool}
    (hinv : g.lockInv) (h : g.step me fr = some g') : g'.lockInv := by
  obtain ⟨th, th', hth, hstep, hset⟩ := Sys.step_inv h
  have hlt : me < g.threads.length := by
    rcases List.getElem?_eq_some_iff.mp hth with ⟨hlt, _⟩
    exact hlt
  obtain ⟨hok', hown', hframe⟩ :=
    Thread.step_own me fr th th' g.store g'.store (hinv.1 me th hth).1 (hinv.1 me th hth).2 hstep
  refine ⟨fun k thk hk => ?_, fun i k hk => ?_⟩
  · by_cases hkm : k = me
    · subst hkm
      rw [hset, List.getElem?_set_self hlt] at hk
      cases hk
      exact ⟨hok', hown'⟩
    · rw [Sys.threads_step h k hkm] at hk
      refine ⟨(hinv.1 k thk hk).1, fun i => ?_⟩
      rw [(hinv.1 k thk hk).2 i, hframe i k hkm]
  · rw [hset, List.length_set]
    by_cases hkm : k = me
    · subst hkm; exact hlt
    · exact hinv.2 i k ((hframe i k hkm).mp hk)

theorem Sys.lockInv_exec (sched : List (Nat × Bool)) :
    ∀ {g g' : Sys}, g.lockInv → Sys.exec sched g = some g' → g'.lockInv := by
  induction sched with
  | nil => intro g g' hinv h; simp [Sys.exec] at h; subst h; exact hinv
  | cons x rest ih =>
    intro g g' hinv h
    obtain ⟨me, fr⟩ := x
    simp only [Sys.exec, Option.bind_eq_some] at h
    obtain ⟨g1, h1, h2⟩ := h
    exact ih (Sys.lockInv_step hinv h1) h2

/-! ## Well-formed workers and the invariant of a population -/

theorem TransferThread.transfer_step_wf (me : Nat) (fr : Bool) (t t' : TransferThread)
    (s s' : Store)
    (hwf : t.wf) (h : t.step me fr s = some (t', s')) : t'.wf ∧ t'.p = t.p := by
  obtain ⟨p, pc, first, second, gf, gs, k, tmp, rep⟩ := t
  cases pc <;>
    simp [TransferThread.step,
      pthread_mutex_lock, pthread_mutex_unlock, pthread_mutex_trylock, setBalance, getBalance,
      Option.bind_eq_some, Option.map_eq_some'] at h
  case trylock =>
    obtain ⟨a, ha, h⟩ := h
    by_cases hc : (s a).mutex = none ∧ fr = true
    · simp [hc] at h
      obtain ⟨rfl, rfl⟩ := h
      refine ⟨?_, rfl⟩
      simp only [TransferThread.wf, TPc.naive, TPc.avoidance, TransferThread.ordered] at hwf ⊢
      split_ifs <;> simp_all
    · simp [hc] at h
      obtain ⟨rfl, rfl⟩ := h
      refine ⟨?_, rfl⟩
      simpa [TransferThread.wf, TPc.naive, TPc.avoidance, TransferThread.ordered] using hwf
  all_goals try split_ifs at h
  all_goals try simp only [Option.some.injEq, Prod.mk.injEq] at h
  all_goals first
    | (obtain ⟨rfl, rfl⟩ := h)
    | (obtain ⟨a, ha, rfl, rfl⟩ := h)
    | (obtain ⟨a, ha, hm, rfl, rfl⟩ := h)
  all_goals refine ⟨?_, rfl⟩
  all_goals
    simp only [TransferThread.wf, TPc.naive, TPc.avoidance, TransferThread.ordered,
      max_retries] at *
  all_goals simp_all
  all_goals omega

theorem OpThread.step_p (me : Nat) (t t' : OpThread) (s s' : Store)
    (h : t.step me s = some (t', s')) : t'.p = t.p := by
  obtain ⟨p, pc, ob, nb⟩ := t
  cases pc <;>
    simp [OpThread.step, Option.bind_eq_some, Option.map_eq_some'] at h
  all_goals try split_ifs at h
  all_goals try simp only [Option.some.injEq, Prod.mk.injEq] at h
  all_goals first
    | (obtain ⟨rfl, rfl⟩ := h)
    | (obtain ⟨a, ha, rfl, rfl⟩ := h)
    | (obtain ⟨a, ha, b, hm, rfl, rfl⟩ := h)
  all_goals rfl

theorem Thread.step_wf (me : Nat) (fr : Bool) (th th' : Thread) (s s' : Store)
    (hwf : th.wf) (h : th.step me fr s = some (th', s')) : th'.wf ∧ th'.request = th.request := by
  cases th with
  | op t =>
    simp only [Thread.step, Option.map_eq_some'] at h
    obtain ⟨⟨t', s1⟩, hstep, heq⟩ := h
    simp only [Prod.mk.injEq] at heq
    obtain ⟨rfl, rfl⟩ := heq
    exact ⟨trivial, by simp [Thread.request, OpThread.step_p me t t' s s1 hstep]⟩
  | transfer t =>
    simp only [Thread.step, Option.map_eq_some'] at h
    obtain ⟨⟨t', s1⟩, hstep, heq⟩ := h
    simp only [Prod.mk.injEq] at heq
    obtain ⟨rfl, rfl⟩ := heq
    obtain ⟨h1, h2⟩ := TransferThread.transfer_step_wf me fr t t' s s1 hwf hstep
    exact ⟨h1, by simp [Thread.request, h2]⟩

theorem Sys.inv_step {rs : List Request} {g g' : Sys} {me : Nat} {fr : Bool}
    (hinv : g.inv rs) (h : g.step me fr = some g') : g'.inv rs := by
  obtain ⟨th, th', hth, hstep, hset⟩ := Sys.step_inv h
  have hlt : me < g.threads.length := by
    rcases List.getElem?_eq_some_iff.mp hth with ⟨hlt, _⟩
    exact hlt
  refine ⟨Sys.lockInv_step hinv.1 h, by rw [hset, List.length_set]; exact hinv.2.1,
    fun k thk hk => ?_⟩
  by_cases hkm : k = me
  · subst hkm
    rw [hset, List.getElem?_set_self hlt] at hk
    obtain rfl := Option.some.inj hk
    obtain ⟨h1, h2⟩ := Thread.step_wf k fr th th' g.store g'.store (hinv.2.2 k th hth).1 hstep
    exact ⟨h1, h2 ▸ (hinv.2.2 k th hth).2⟩
  · rw [Sys.threads_step h k hkm] at hk
    exact hinv.2.2 k thk hk

theorem Sys.inv_exec {rs : List Request} (sched : List (Nat × Bool)) :
    ∀ {g g' : Sys}, g.inv rs → Sys.exec sched g = some g' → g'.inv rs := by
  induction sched with
  | nil => intro g g' hinv h; simp [Sys.exec] at h; subst h; exact hinv
  | cons x rest ih =>
    intro g g' hinv h
    obtain ⟨me, fr⟩ := x
    simp only [Sys.exec, Option.bind_eq_some] at h
    obtain ⟨g1, h1, h2⟩ := h
    exact ih (Sys.inv_step hinv h1) h2

theorem boot_inv (bal : Fin NUM_ACCOUNTS → Int) (rs : List Request) : (boot bal rs).inv rs := by
  refine ⟨⟨fun k th hk => ?_, fun i k hk => ?_⟩, by simp [boot], fun k th hk => ?_⟩
  · simp only [boot, List.getElem?_map, Option.map_eq_some'] at hk
    obtain ⟨r, _, rfl⟩ := hk
    cases r <;>
      simp [Request.spawn, Thread.ok, Thread.holds, OpThread.ok, OpThread.holds, OpThread.start,
        TransferThread.ok, TransferThread.holds, TransferThread.start, initStore, boot]
  · simp [boot, initStore] at hk
  · simp only [boot, List.getElem?_map, Option.map_eq_some'] at hk
    obtain ⟨r, hr, rfl⟩ := hk
    cases r <;>
      simp [Request.spawn, Thread.wf, Thread.request, OpThread.start, TransferThread.wf,
        TransferThread.start, TPc.naive, TPc.avoidance, hr, max_retries]

theorem reachable_inv {bal : Fin NUM_ACCOUNTS → Int} {rs : List Request}
    {sched : List (Nat × Bool)} {g : Sys} (h : Sys.exec sched (boot bal rs) = some g) :
    g.inv rs :=
  Sys.inv_exec sched (boot_inv bal rs) h

/-! ## Lock discipline at balance accesses -/

theorem ordered_slots {t : TransferThread} (h : t.ordered) (i : Fin NUM_ACCOUNTS) :
    (slot t.first = some i ∨ slot t.second = some i) ↔
      (slot t.p.from_acc = some i ∨ slot t.p.to_acc = some i) := by
  obtain ⟨h1, h2⟩ := h
  rw [h1, h2]
  unfold lockOrder
  split
  · exact Or.comm
  · exact Iff.rfl

theorem Thread.step_balance (me : Nat) (fr : Bool) (th th' : Thread) (s s' : Store)
    (i : Fin NUM_ACCOUNTS) (h : th.step me fr s = some (th', s'))
    (hb : (s' i).balance ≠ (s i).balance) :
    (s' i).mutex = (s i).mutex ∧
    ((∃ t, th = .op t ∧ t.pc = .write ∧ slot t.p.acc_id = some i) ∨
     (∃ t, th = .transfer t ∧ t.pc.mutating = true ∧
        (slot t.p.from_acc = some i ∨ slot t.p.to_acc = some i))) := by
  cases th with
  | op t =>
    simp only [Thread.step, Option.map_eq_some'] at h
    obtain ⟨⟨t', s1⟩, hstep, heq⟩ := h
    simp only [Prod.mk.injEq] at heq
    obtain ⟨rfl, rfl⟩ := heq
    obtain ⟨p, pc, ob, nb⟩ := t
    cases pc <;>
      simp [OpThread.step, pthread_mutex_lock, pthread_mutex_unlock, setBalance, getBalance,
        Option.bind_eq_some, Option.map_eq_some'] at hstep
    all_goals try split_ifs at hstep
    all_goals try simp only [Option.some.injEq, Prod.mk.injEq] at hstep
    all_goals first
      | (obtain ⟨rfl, rfl⟩ := hstep)
      | (obtain ⟨a, ha, rfl, rfl⟩ := hstep)
      | (obtain ⟨a, ha, hm, rfl, rfl⟩ := hstep)
    all_goals try (exact absurd rfl hb)
    all_goals by_cases hi : i = a
    all_goals try subst hi
    all_goals simp_all [Function.update_apply]
  | transfer t =>
    simp only [Thread.step, Option.map_eq_some'] at h
    obtain ⟨⟨t', s1⟩, hstep, heq⟩ := h
    simp only [Prod.mk.injEq] at heq
    obtain ⟨rfl, rfl⟩ := heq
    obtain ⟨p, pc, first, second, gf, gs, k, tmp, rep⟩ := t
    cases pc <;>
      simp [TransferThread.step, pthread_mutex_lock, pthread_mutex_unlock,
        pthread_mutex_trylock, setBalance, getBalance,
        Option.bind_eq_some, Option.map_eq_some'] at hstep
    case trylock =>
      obtain ⟨a, ha, h⟩ := hstep
      by_cases hc : (s a).mutex = none ∧ fr = true
      · simp [hc] at h
        obtain ⟨rfl, rfl⟩ := h
        by_cases hi : i = a
        · subst hi; simp at hb
        · simp [Function.update_apply, hi] at hb
      · simp [hc] at h
        obtain ⟨rfl, rfl⟩ := h
        exact absurd rfl hb
    all_goals try split_ifs at hstep
    all_goals try simp only [Option.some.injEq, Prod.mk.injEq] at hstep
    all_goals first
      | (obtain ⟨rfl, rfl⟩ := hstep)
      | (obtain ⟨a, ha, rfl, rfl⟩ := hstep)
      | (obtain ⟨a, ha, hm, rfl, rfl⟩ := hstep)
    all_goals try (exact absurd rfl hb)
    all_goals by_cases hi : i = a
    all_goals try subst hi
    all_goals simp_all [Function.update_apply, TPc.mutating]

theorem Sys.inv_transfer {rs : List Request} {g : Sys} (hinv : g.inv rs) {k : Nat}
    {t : TransferThread} (hk : g.threads[k]? = some (.transfer t)) :
    t.ok ∧ t.wf ∧ ∀ i, t.holds i ↔ (g.store i).mutex = some k :=
  ⟨(hinv.1.1 k _ hk).1, (hinv.2.2 k _ hk).1, (hinv.1.1 k _ hk).2⟩

theorem Sys.inv_op {rs : List Request} {g : Sys} (hinv : g.inv rs) {k : Nat}
    {t : OpThread} (hk : g.threads[k]? = some (.op t)) :
    t.ok ∧ ∀ i, t.holds i ↔ (g.store i).mutex = some k :=
  ⟨(hinv.1.1 k _ hk).1, (hinv.1.1 k _ hk).2⟩

theorem TransferThread.holds_mutating {t : TransferThread} (hwf : t.wf)
    (hm : t.pc.mutating = true) (i : Fin NUM_ACCOUNTS)
    (hi : slot t.p.from_acc = some i ∨ slot t.p.to_acc = some i) : t.holds i := by
  obtain ⟨p, pc, first, second, gf, gs, k, tmp, rep⟩ := t
  cases pc <;> simp [TPc.mutating] at hm
  all_goals first
    | (simpa [TransferThread.holds] using hi)
    | (have ho := (hwf.2.1 (by simp [TPc.avoidance])).2
       simpa [TransferThread.holds] using (ordered_slots ho i).mpr hi)

/-- Lock discipline of a population left to itself. In every state reached from
`boot` by steps of the workers alone, the driver touching no mutex and no balance
while they run, a worker other than an unsynchronized operation holds the mutex of
each account whose balance it reads or writes: a synchronized operation holds the mutex of its account at every
program point from the read to the write; a transfer in either mode holds the
mutexes of both `from` and `to` at every program point of the debit, of the
credit and of the print of the new balances, so neither is released before both
mutations are done; and a step that changes a balance is taken by a worker that
holds that account's mutex before and after the step. -/
theorem lock_held_at_balance_access (bal : Fin NUM_ACCOUNTS → Int) (rs : List Request)
    (sched : List (Nat × Bool)) (g : Sys) (h : Sys.exec sched (boot bal rs) = some g)
    (k : Nat) (th : Thread) (hk : g.threads[k]? = some th) :
    (∀ t, th = .op t → t.p.use_mutex ≠ 0 → t.pc.critical = true →
      ∀ i, slot t.p.acc_id = some i → (g.store i).mutex = some k) ∧
    (∀ t, th = .transfer t → t.pc.mutating = true →
      ∀ i, slot t.p.from_acc = some i ∨ slot t.p.to_acc = some i →
        (g.store i).mutex = some k) ∧
    (∀ fr g' i, ¬ th.unsynchronized → g.step k fr = some g' →
      (g'.store i).balance ≠ (g.store i).balance →
        (g.store i).mutex = some k ∧ (g'.store i).mutex = some k) := by
  have hinv := reachable_inv h
  have hop : ∀ t, th = .op t → t.p.use_mutex ≠ 0 → t.pc.critical = true →
      ∀ i, slot t.p.acc_id = some i → (g.store i).mutex = some k := by
    intro t ht hmx hc i hi
    subst ht
    obtain ⟨_, hown⟩ := Sys.inv_op hinv hk
    refine (hown i).mp ?_
    obtain ⟨p, pc, ob, nb⟩ := t
    cases pc <;> simp [OpPc.critical] at hc <;> exact ⟨hmx, hi⟩
  have htr : ∀ t, th = .transfer t → t.pc.mutating = true →
      ∀ i, slot t.p.from_acc = some i ∨ slot t.p.to_acc = some i →
        (g.store i).mutex = some k := by
    intro t ht hm i hi
    subst ht
    obtain ⟨_, hwf, hown⟩ := Sys.inv_transfer hinv hk
    exact (hown i).mp (TransferThread.holds_mutating hwf hm i hi)
  refine ⟨hop, htr, ?_⟩
  intro fr g' i hsync hstep hb
  obtain ⟨th0, th', hth, hst, _⟩ := Sys.step_inv hstep
  rw [hk] at hth
  obtain rfl := Option.some.inj hth
  obtain ⟨hmx, hw⟩ := Thread.step_balance k fr th th' g.store g'.store i hst hb
  have hheld : (g.store i).mutex = some k := by
    rcases hw with ⟨t, rfl, hpc, hi⟩ | ⟨t, rfl, hpc, hi⟩
    · exact hop t rfl hsync (by simp [hpc, OpPc.critical]) i hi
    · exact htr t rfl hpc i hi
  exact ⟨hheld, hmx ▸ hheld⟩

theorem lock_held_at_balance_access_witness :
    ∃ g th, Sys.exec [(0, true), (1, true), (0, true), (0, true)]
        (boot (fun _ => 100) [Request.op ⟨3, 0, 50, 1⟩, Request.transfer tp3]) = some g ∧
      g.threads[0]? = some th ∧
      ((∀ t, th = .op t → t.p.use_mutex ≠ 0 → t.pc.critical = true →
        ∀ i, slot t.p.acc_id = some i → (g.store i).mutex = some 0) ∧
      (∀ t, th = .transfer t → t.pc.mutating = true →
        ∀ i, slot t.p.from_acc = some i ∨ slot t.p.to_acc = some i →
          (g.store i).mutex = some 0) ∧
      (∀ fr g' i, ¬ th.unsynchronized → g.step 0 fr = some g' →
        (g'.store i).balance ≠ (g.store i).balance →
          (g.store i).mutex = some 0 ∧ (g'.store i).mutex = some 0)) :=
  ⟨_, _, rfl, rfl,
    lock_held_at_balance_access (fun _ => 100) [Request.op ⟨3, 0, 50, 1⟩, Request.transfer tp3]
      [(0, true), (1, true), (0, true), (0, true)] _ rfl 0 _ rfl⟩

/-! ## The recovery of `main` and the lock discipline -/

/-- C9 (defect of the recovery in `main`, lines 238-255). Phase 3 reaches the state
in which worker 0 holds the mutex of account 0, worker 1 holds the mutex of account
1 and both wait at line 82, with no step to take. The recovery of `main` then frees
both mutexes while both workers are still there: `pthread_mutex_lock` is not a
cancellation point and the workers are not joined. Worker 1, the naive transfer of
20 from account 1 to account 0, now takes the mutex of account 0 and stands at the
debit of line 86 without the mutex of account 1, which nobody holds; its next two
steps read the balance of account 1 and write it back as 80, still without that
mutex, while the two workers of Phase 4 have not finished. -/
theorem recovery_breaks_lock_discipline :
    ∃ g3 m m' t,
      Sys.exec [(0, true), (0, true), (1, true), (1, true), (0, true), (1, true)] phase3
        = some g3 ∧
      (∀ k fr, g3.step k fr = none) ∧
      (g3.store 0).mutex = some 0 ∧ (g3.store 1).mutex = some 1 ∧
      Proc.exec [(1, true)] (main_recovery g3) = some m ∧
      m.sys.threads[1]? = some (Thread.transfer t) ∧ t.p = tp2 ∧ t.pc = .n_debit_rd ∧
      t.pc.mutating = true ∧ slot t.p.from_acc = some 1 ∧
      (m.sys.store 0).mutex = some 1 ∧ (m.sys.store 1).mutex = none ∧
      Proc.exec [(1, true), (1, true)] m = some m' ∧
      (m.sys.store 1).balance = 100 ∧ (m'.sys.store 1).balance = 80 ∧
      (m'.sys.store 1).mutex = none ∧
      (∀ th ∈ m'.sys.threads.drop 2, th.finished = false) := by
  refine ⟨_, _, _, _, rfl, ?_, rfl, rfl, rfl, rfl, rfl, rfl, rfl, rfl, rfl, rfl, rfl,
    by decide, by decide, rfl, by decide⟩
  intro k fr
  match k with
  | 0 => cases fr <;> rfl
  | 1 => cases fr <;> rfl
  | k + 2 => rfl

/-- A run of `main` from Phase 3 to the end of Phase 4 in which value is not
conserved: after the recovery both naive workers of Phase 3 go on, each holding
the mutex of its `to` account only, and the debit of worker 0 on account 0 is
overwritten by the credit of worker 1; the two workers of Phase 4 then complete
their transfers, and the two balances add up to 230 where `main` expects 200
(line 261). -/
theorem recovery_race_loses_update :
    ∃ g3 m,
      Sys.exec [(0, true), (0, true), (1, true), (1, true), (0, true), (1, true)] phase3
        = some g3 ∧
      Proc.exec
        [(1, true), (0, true), (0, true), (1, true), (1, true), (1, true), (0, true),
         (1, true), (0, true), (0, true), (1, true), (0, true),
         (2, true), (2, true), (2, true), (2, true), (2, true), (2, true), (2, true),
         (2, true), (2, true), (2, true), (2, true),
         (3, true), (3, true), (3, true), (3, true), (3, true), (3, true), (3, true),
         (3, true), (3, true), (3, true), (3, true)] (main_recovery g3) = some m ∧
      (∃ t2 t3, m.sys.threads[2]? = some (Thread.transfer t2) ∧
        m.sys.threads[3]? = some (Thread.transfer t3) ∧
        t2.pc = .finished ∧ t2.report = .completed ∧
        t3.pc = .finished ∧ t3.report = .completed) ∧
      (m.sys.store 0).balance = 110 ∧ (m.sys.store 1).balance = 120 ∧
      (m.sys.store 0).balance + (m.sys.store 1).balance ≠ 200 :=
  ⟨_, _, rfl, rfl, ⟨_, _, rfl, rfl, rfl, rfl, rfl, rfl⟩, by decide, by decide, by decide⟩

/-! ## Where the deadlock-avoiding runner can wait -/

theorem TransferThread.wf_slots {t : TransferThread} (hwf : t.wf)
    (hpc : t.pc.avoidance = true) {X Y : Fin NUM_ACCOUNTS}
    (hX : slot t.p.from_acc = some X) (hY : slot t.p.to_acc = some Y) :
    ∃ F S, slot t.first = some F ∧ slot t.second = some S ∧
      ((F = X ∧ S = Y) ∨ (F = Y ∧ S = X)) := by
  obtain ⟨h1, h2⟩ := (hwf.2.1 hpc).2
  rw [h1, h2]
  rcases slot_lockOrder hX hY with ⟨e1, e2⟩ | ⟨e1, e2⟩
  · exact ⟨X, Y, e1, e2, Or.inl ⟨rfl, rfl⟩⟩
  · exact ⟨Y, X, e1, e2, Or.inr ⟨rfl, rfl⟩⟩

theorem TransferThread.avoid_progress (me : Nat) (fr : Bool) (t : TransferThread) (s : Store)
    (hok : t.ok) (hwf : t.wf) (hown : ∀ i, t.holds i ↔ (s i).mutex = some me)
    (hav : t.p.use_deadlock_avoidance ≠ 0)
    (hX : (slot t.p.from_acc).isSome = true) (hY : (slot t.p.to_acc).isSome = true)
    (h : t.step me fr s = none) :
    t.pc = .finished ∨
      (t.pc = .lock_first ∧ ∃ i u, slot t.first = some i ∧ (s i).mutex = some u ∧ u ≠ me) := by
  obtain ⟨X, hX⟩ := Option.isSome_iff_exists.mp hX
  obtain ⟨Y, hY⟩ := Option.isSome_iff_exists.mp hY
  by_cases hn : t.pc.naive = true
  · exact absurd (hwf.1 hn) hav
  by_cases ha : t.pc.avoidance = true
  · obtain ⟨F, S, hF, hS, -⟩ := TransferThread.wf_slots hwf ha hX hY
    have h1 := hown F
    have h2 := hown S
    obtain ⟨p, pc, first, second, gf, gs, k, tmp, rep⟩ := t
    simp only at hF hS hX hY
    cases pc with
    | lock_first =>
      simp [TransferThread.step, hF, hS, hX, hY, pthread_mutex_lock, pthread_mutex_unlock,
        TransferThread.holds, TransferThread.ok] at h h1 h2 hok ⊢
      cases hm : (s F).mutex with
      | none => exact absurd hm h
      | some u =>
        refine ⟨u, rfl, fun e => ?_⟩
        subst e
        exact h1 hm
    | _ =>
      simp [TPc.avoidance] at ha <;>
      simp [TransferThread.step, hF, hS, hX, hY, pthread_mutex_lock, pthread_mutex_unlock,
        TransferThread.holds, TransferThread.ok] at h h1 h2 hok ⊢ <;>
      (try split_ifs at h) <;>
      (try simp_all)
  · obtain ⟨p, pc, first, second, gf, gs, k, tmp, rep⟩ := t
    cases pc <;> simp [TPc.avoidance, TPc.naive] at ha hn
    · simp [TransferThread.step] at h; split_ifs at h
    · exact Or.inl rfl

/-- C10. In every reachable state of every population and schedule (so for every
sequence of trylock outcomes), a deadlock-avoiding transfer worker with in-bounds
account ids satisfies: at the head of the loop `got_first` is 0 and it holds no
mutex; the only program point where it can be kept waiting is the blocking
acquisition of `first`, where it holds no mutex; while it tries `second` it holds
`first` only; at the back-off sleep it holds no mutex; the release of the abort
branch is never reached, and when the loop is left without `second` then
`got_first` is 0. -/
theorem avoidance_never_waits_holding (bal : Fin NUM_ACCOUNTS → Int) (rs : List Request)
    (sched : List (Nat × Bool)) (g : Sys) (h : Sys.exec sched (boot bal rs) = some g)
    (k : Nat) (t : TransferThread) (hk : g.threads[k]? = some (.transfer t))
    (hav : t.p.use_deadlock_avoidance ≠ 0)
    (hX : (slot t.p.from_acc).isSome = true) (hY : (slot t.p.to_acc).isSome = true) :
    (t.pc = .loop_head → t.got_first = false ∧ ∀ i, (g.store i).mutex ≠ some k) ∧
    (∀ fr, g.step k fr = none → t.pc ≠ .finished →
      t.pc = .lock_first ∧ (∀ i, (g.store i).mutex ≠ some k) ∧
        ∃ i u, slot t.first = some i ∧ (g.store i).mutex = some u ∧ u ≠ k) ∧
    (t.pc = .trylock → ∀ i, (g.store i).mutex = some k ↔ slot t.first = some i) ∧
    (t.pc = .backoff → ∀ i, (g.store i).mutex ≠ some k) ∧
    t.pc ≠ .abort_unlock ∧
    (t.pc = .after_loop → t.got_second = false → t.got_first = false) ∧
    t.attempt ≤ max_retries := by
  obtain ⟨hok, hwf, hown⟩ := Sys.inv_transfer (reachable_inv h) hk
  refine ⟨fun hpc => ?_, fun fr hstep hnf => ?_, fun hpc i => ?_, fun hpc i => ?_, fun hpc => ?_,
    fun hpc hgs => ?_, ?_⟩
  · refine ⟨?_, fun i hi => ?_⟩
    · simp only [TransferThread.ok, hpc] at hok; exact hok.1
    · have := (hown i).mpr hi
      simp [TransferThread.holds, hpc] at this
  · have hnone : t.step k fr g.store = none := by
      simp only [Sys.step, hk, Option.some_bind, Option.map_eq_none'] at hstep
      simpa [Thread.step] using hstep
    rcases TransferThread.avoid_progress k fr t g.store hok hwf hown hav hX hY hnone with
      hf | ⟨hpc, hw⟩
    · exact absurd hf hnf
    · refine ⟨hpc, fun i hi => ?_, hw⟩
      have := (hown i).mpr hi
      simp [TransferThread.holds, hpc] at this
  · rw [← hown i]; simp [TransferThread.holds, hpc]
  · intro hi
    have := (hown i).mpr hi
    simp [TransferThread.holds, hpc] at this
  · simp [TransferThread.ok, hpc] at hok
  · simp only [TransferThread.ok, hpc] at hok; rw [hok.1, hgs]
  · exact hwf.2.2.1

theorem avoidance_never_waits_holding_witness :
    ∃ g t, Sys.exec [(0, true), (1, true), (0, true), (0, true), (1, true)]
        (boot (fun _ => 100) [Request.transfer tp3, Request.transfer tp4]) = some g ∧
      g.threads[1]? = some (Thread.transfer t) ∧
      t.p.use_deadlock_avoidance ≠ 0 ∧
      (slot t.p.from_acc).isSome = true ∧ (slot t.p.to_acc).isSome = true ∧
      ((t.pc = .loop_head → t.got_first = false ∧ ∀ i, (g.store i).mutex ≠ some 1) ∧
       (∀ fr, g.step 1 fr = none → t.pc ≠ .finished →
          t.pc = .lock_first ∧ (∀ i, (g.store i).mutex ≠ some 1) ∧
            ∃ i u, slot t.first = some i ∧ (g.store i).mutex = some u ∧ u ≠ 1) ∧
       (t.pc = .trylock → ∀ i, (g.store i).mutex = some 1 ↔ slot t.first = some i) ∧
       (t.pc = .backoff → ∀ i, (g.store i).mutex ≠ some 1) ∧
       t.pc ≠ .abort_unlock ∧
       (t.pc = .after_loop → t.got_second = false → t.got_first = false) ∧
       t.attempt ≤ max_retries) :=
  ⟨_, _, rfl, rfl, by decide, by decide, by decide,
    avoidance_never_waits_holding (fun _ => 100) [Request.transfer tp3, Request.transfer tp4]
      [(0, true), (1, true), (0, true), (0, true), (1, true)] _ rfl 1 _ rfl
      (by decide) (by decide) (by decide)⟩

/-! ## Termination and absence of circular wait -/

theorem TransferThread.transfer_step_fuel (me : Nat) (fr : Bool) (t t' : TransferThread)
    (s s' : Store)
    (h : t.step me fr s = some (t', s')) : t'.fuel < t.fuel := by
  obtain ⟨p, pc, first, second, gf, gs, k, tmp, rep⟩ := t
  cases pc <;>
    simp [TransferThread.step,
      pthread_mutex_lock, pthread_mutex_unlock, pthread_mutex_trylock, setBalance, getBalance,
      Option.bind_eq_some, Option.map_eq_some'] at h
  case trylock =>
    obtain ⟨a, ha, h⟩ := h
    by_cases hc : (s a).mutex = none ∧ fr = true
    · simp [hc] at h
      obtain ⟨rfl, rfl⟩ := h
      simp only [TransferThread.fuel]
      split_ifs <;> simp
    · simp [hc] at h
      obtain ⟨rfl, rfl⟩ := h
      simp [TransferThread.fuel]
  all_goals try split_ifs at h
  all_goals try simp only [Option.some.injEq, Prod.mk.injEq] at h
  all_goals first
    | (obtain ⟨rfl, rfl⟩ := h)
    | (obtain ⟨a, ha, rfl, rfl⟩ := h)
    | (obtain ⟨a, ha, hm, rfl, rfl⟩ := h)
  all_goals simp only [TransferThread.fuel, max_retries] at *
  all_goals omega

theorem OpThread.op_step_fuel (me : Nat) (t t' : OpThread) (s s' : Store)
    (h : t.step me s = some (t', s')) : t'.fuel < t.fuel := by
  obtain ⟨p, pc, ob, nb⟩ := t
  cases pc <;>
    simp [OpThread.step, Option.bind_eq_some, Option.map_eq_some'] at h
  all_goals try split_ifs at h
  all_goals try simp only [Option.some.injEq, Prod.mk.injEq] at h
  all_goals first
    | (obtain ⟨rfl, rfl⟩ := h)
    | (obtain ⟨a, ha, rfl, rfl⟩ := h)
    | (obtain ⟨a, ha, b, hm, rfl, rfl⟩ := h)
  all_goals simp only [OpThread.fuel]
  all_goals omega

theorem Thread.thread_step_fuel (me : Nat) (fr : Bool) (th th' : Thread) (s s' : Store)
    (h : th.step me fr s = some (th', s')) : th'.fuel < th.fuel := by
  cases th with
  | op t =>
    simp only [Thread.step, Option.map_eq_some'] at h
    obtain ⟨⟨t', s1⟩, hstep, heq⟩ := h
    simp only [Prod.mk.injEq] at heq
    obtain ⟨rfl, rfl⟩ := heq
    exact OpThread.op_step_fuel me t t' s s1 hstep
  | transfer t =>
    simp only [Thread.step, Option.map_eq_some'] at h
    obtain ⟨⟨t', s1⟩, hstep, heq⟩ := h
    simp only [Prod.mk.injEq] at heq
    obtain ⟨rfl, rfl⟩ := heq
    exact TransferThread.transfer_step_fuel me fr t t' s s1 hstep

theorem sum_set_nat :
    ∀ (l : List Nat) (k a b : Nat), l[k]? = some a → (l.set k b).sum + a = l.sum + b := by
  intro l
  induction l with
  | nil => intro k a b h; simp at h
  | cons c l ih =>
    intro k a b h
    cases k with
    | zero =>
      simp at h; subst h
      simp [List.set]; omega
    | succ k =>
      simp at h
      have := ih k a b h
      simp [List.set]; omega

theorem Sys.step_fuel {g g' : Sys} {me : Nat} {fr : Bool} (h : g.step me fr = some g') :
    g'.fuel < g.fuel := by
  obtain ⟨th, th', hth, hstep, hset⟩ := Sys.step_inv h
  have h1 := Thread.thread_step_fuel me fr th th' g.store g'.store hstep
  have h2 := sum_set_nat (g.threads.map Thread.fuel) me th.fuel th'.fuel
    (by rw [List.getElem?_map, hth]; rfl)
  simp only [Sys.fuel, hset, List.map_set]
  omega

theorem Sys.exec_fuel (sched : List (Nat × Bool)) :
    ∀ {g g' : Sys}, Sys.exec sched g = some g' → sched.length + g'.fuel ≤ g.fuel := by
  induction sched with
  | nil => intro g g' h; simp [Sys.exec] at h; subst h; simp
  | cons x rest ih =>
    intro g g' h
    obtain ⟨me, fr⟩ := x
    simp only [Sys.exec, Option.bind_eq_some] at h
    obtain ⟨g1, h1, h2⟩ := h
    have := ih h2
    have := Sys.step_fuel h1
    simp only [List.length_cons]
    omega

theorem boot_fuel (bal : Fin NUM_ACCOUNTS → Int) (rs : List Request) :
    (boot bal rs).fuel ≤ 60 * rs.length := by
  simp only [boot, Sys.fuel, List.map_map]
  induction rs with
  | nil => simp
  | cons r rs ih =>
    simp only [List.map_cons, List.sum_cons, List.length_cons]
    have : (Thread.fuel ∘ Request.spawn) r ≤ 60 := by
      cases r <;> simp [Request.spawn, Thread.fuel, OpThread.fuel, OpThread.start,
        TransferThread.fuel, TransferThread.start]
    omega

theorem OpThread.op_progress (me : Nat) (t : OpThread) (s : Store)
    (hok : t.ok) (hown : ∀ i, t.holds i ↔ (s i).mutex = some me)
    (hsome : (slot t.p.acc_id).isSome = true) (h : t.step me s = none) :
    t.pc = .finished ∨
      (t.pc = .lock ∧ ∃ i u, slot t.p.acc_id = some i ∧ (s i).mutex = some u) := by
  obtain ⟨X, hX⟩ := Option.isSome_iff_exists.mp hsome
  clear hsome
  have h1 := hown X
  obtain ⟨p, pc, ob, nb⟩ := t
  simp only at hX
  cases pc with
  | lock =>
    simp only [OpThread.step, hX, pthread_mutex_lock, Option.some_bind, Option.map_eq_none',
      ite_eq_right_iff, imp_false] at h
    right
    refine ⟨rfl, X, ?_⟩
    cases hm : (s X).mutex with
    | none => exact absurd (h hm) (by simp)
    | some u => exact ⟨u, hX, rfl⟩
  | _ =>
    simp [OpThread.step, hX, pthread_mutex_lock, pthread_mutex_unlock, OpThread.holds,
      OpThread.ok] at h h1 hok ⊢ <;>
    (try split_ifs at h) <;>
    (try simp_all)

theorem Thread.progress (me : Nat) (fr : Bool) (th : Thread) (s : Store)
    (hok : th.ok) (hwf : th.wf) (hown : ∀ i, th.holds i ↔ (s i).mutex = some me)
    (hsafe : th.request.safe) (h : th.step me fr s = none) :
    th.finished = true ∨
      ((∀ i, ¬ th.holds i) ∧
        ∃ a i u, th.wants = some a ∧ slot a = some i ∧ (s i).mutex = some u) := by
  cases th with
  | op t =>
    have hn : t.step me s = none := by simpa [Thread.step] using h
    rcases OpThread.op_progress me t s hok hown hsafe hn with hf | ⟨hpc, i, u, hi, hu⟩
    · exact Or.inl (by simp [Thread.finished, hf])
    · exact Or.inr ⟨fun i => by simp [Thread.holds, OpThread.holds, hpc],
        t.p.acc_id, i, u, by simp [Thread.wants, hpc], hi, hu⟩
  | transfer t =>
    have hn : t.step me fr s = none := by simpa [Thread.step] using h
    rcases TransferThread.avoid_progress me fr t s hok hwf hown hsafe.1 hsafe.2.1 hsafe.2.2 hn
      with hf | ⟨hpc, i, u, hi, hu, _⟩
    · exact Or.inl (by simp [Thread.finished, hf])
    · exact Or.inr ⟨fun i => by simp [Thread.holds, TransferThread.holds, hpc],
        t.first, i, u, by simp [Thread.wants, hpc], hi, hu⟩

theorem Thread.finished_holds {th : Thread} (hf : th.finished = true) (i : Fin NUM_ACCOUNTS) :
    ¬ th.holds i := by
  cases th with
  | op t =>
    have : t.pc = .finished := by simpa [Thread.finished] using hf
    simp [Thread.holds, OpThread.holds, this]
  | transfer t =>
    have : t.pc = .finished := by simpa [Thread.finished] using hf
    simp [Thread.holds, TransferThread.holds, this]

theorem Sys.step_none_iff {g : Sys} {k : Nat} {fr : Bool} {th : Thread}
    (hk : g.threads[k]? = some th) :
    g.step k fr = none ↔ th.step k fr g.store = none := by
  simp [Sys.step, hk]

/-- Deadlock freedom: in a population of safe requests, as long as some worker
has not finished, some worker can take a step. -/
theorem Sys.can_step {rs : List Request} {g : Sys} (hinv : g.inv rs)
    (hsafe : ∀ r ∈ rs, r.safe) {k : Nat} {th : Thread} (hk : g.threads[k]? = some th)
    (hnf : th.finished = false) : ∃ j g', g.step j true = some g' := by
  have safeOf : ∀ (j : Nat) (thj : Thread), g.threads[j]? = some thj → thj.request.safe :=
    fun j thj hj =>
    hsafe _ (List.getElem?_mem (hinv.2.2 j thj hj).2)
  cases hstep : g.step k true with
  | some g' => exact ⟨k, g', hstep⟩
  | none =>
    have hn := (Sys.step_none_iff hk).mp hstep
    rcases Thread.progress k true th g.store (hinv.1.1 k th hk).1 (hinv.2.2 k th hk).1
      (hinv.1.1 k th hk).2 (safeOf k th hk) hn with hf | ⟨_, a, i, u, _, _, hu⟩
    · rw [hf] at hnf; cases hnf
    · have hlt := hinv.1.2 i u hu
      have hu' : g.threads[u]? = some g.threads[u] := List.getElem?_eq_getElem hlt
      have hholds := ((hinv.1.1 u _ hu').2 i).mpr hu
      cases hstepu : g.step u true with
      | some g' => exact ⟨u, g', hstepu⟩
      | none =>
        have hnu := (Sys.step_none_iff hu').mp hstepu
        rcases Thread.progress u true _ g.store (hinv.1.1 u _ hu').1 (hinv.2.2 u _ hu').1
          (hinv.1.1 u _ hu').2 (safeOf u _ hu') hnu with hf | ⟨hnone, _⟩
        · exact absurd hholds (Thread.finished_holds hf i)
        · exact absurd hholds (hnone i)

/-- No circular wait in a population of safe requests. -/
theorem Sys.no_circular_wait {rs : List Request} {g : Sys} (hinv : g.inv rs)
    (hsafe : ∀ r ∈ rs, r.safe) : ¬ g.circularWait := by
  rintro ⟨k, hcyc⟩
  obtain ⟨b, ⟨th, a, i, hk, hw, hi, hb⟩, _⟩ := Relation.TransGen.head'_iff.mp hcyc
  obtain ⟨c, _, ⟨thc, a', i', hc, hw', hi', hheld⟩⟩ := Relation.TransGen.tail'_iff.mp hcyc
  have hholds : th.holds i' := ((hinv.1.1 k th hk).2 i').mpr hheld
  have hs : th.request.safe := hsafe _ (List.getElem?_mem (hinv.2.2 k th hk).2)
  have hwf := (hinv.2.2 k th hk).1
  cases th with
  | op t =>
    have hpc : t.pc = .lock := by
      by_contra hne
      simp [Thread.wants, hne] at hw
    simp [Thread.holds, OpThread.holds, hpc] at hholds
  | transfer t =>
    obtain ⟨p, pc, first, second, gf, gs, n, tmp, rep⟩ := t
    cases pc <;> simp [Thread.wants] at hw <;>
      simp [Thread.holds, TransferThread.holds] at hholds
    have := hwf.1 (by simp [TPc.naive])
    exact hs.1 this

/-- From every state of a population of safe requests the workers can be
scheduled so that all of them finish. -/
theorem Sys.can_finish {rs : List Request} (hsafe : ∀ r ∈ rs, r.safe) :
    ∀ (n : Nat) (g : Sys), g.fuel ≤ n → g.inv rs →
      ∃ sched g', Sys.exec sched g = some g' ∧ g'.allFinished := by
  intro n
  induction n with
  | zero =>
    intro g hn hinv
    refine ⟨[], g, rfl, fun th hth => ?_⟩
    by_contra hnf
    obtain ⟨k, hk⟩ := List.getElem?_of_mem hth
    obtain ⟨j, g', hstep⟩ := Sys.can_step hinv hsafe hk (by simpa using hnf)
    have := Sys.step_fuel hstep
    omega
  | succ n ih =>
    intro g hn hinv
    by_cases hall : g.allFinished
    · exact ⟨[], g, rfl, hall⟩
    · simp only [Sys.allFinished, not_forall] at hall
      obtain ⟨th, hth, hnf⟩ := hall
      obtain ⟨k, hk⟩ := List.getElem?_of_mem hth
      obtain ⟨j, g1, hstep⟩ := Sys.can_step hinv hsafe hk (by simpa using hnf)
      have hf := Sys.step_fuel hstep
      obtain ⟨sched, g', hex, hfin⟩ := ih g1 (by omega) (Sys.inv_step hinv hstep)
      exact ⟨(j, true) :: sched, g', by simp [Sys.exec, hstep, hex], hfin⟩

/-- C7. For every population of deadlock-avoiding transfer workers with in-bounds
account ids, every schedule and every reachable state: there is no circular wait;
the execution so far has at most 60 steps per worker; as long as some worker has
not finished some worker can take a step, so no reachable state is a hang; the
workers can be scheduled from there so that all finish; and every worker has made
at most `max_retries` attempts and, once finished, has reported completion or abort. -/
theorem avoidance_no_circular_wait (bal : Fin NUM_ACCOUNTS → Int) (ps : List TransferParams)
    (hps : ∀ p ∈ ps, p.use_deadlock_avoidance ≠ 0 ∧ (slot p.from_acc).isSome = true ∧
      (slot p.to_acc).isSome = true)
    (sched : List (Nat × Bool)) (g : Sys)
    (h : Sys.exec sched (boot bal (ps.map Request.transfer)) = some g) :
    ¬ g.circularWait ∧
    sched.length ≤ 60 * ps.length ∧
    (¬ g.allFinished → ∃ j g', g.step j true = some g') ∧
    (∃ sched' g', Sys.exec sched' g = some g' ∧ g'.allFinished) ∧
    (∀ (k : Nat) (t : TransferThread), g.threads[k]? = some (Thread.transfer t) →
      t.attempt ≤ max_retries ∧
        (t.pc = .finished → t.report = .completed ∨ t.report = .aborted)) := by
  have hinv := reachable_inv h
  have hsafe : ∀ r ∈ ps.map Request.transfer, r.safe := by
    intro r hr
    obtain ⟨p, hp, rfl⟩ := List.mem_map.mp hr
    exact hps p hp
  refine ⟨Sys.no_circular_wait hinv hsafe, ?_, fun hnf => ?_,
    Sys.can_finish hsafe g.fuel g (Nat.le_refl _) hinv, fun k t hk => ?_⟩
  · have h1 := Sys.exec_fuel sched h
    have h2 := boot_fuel bal (ps.map Request.transfer)
    simp only [List.length_map] at h2
    omega
  · simp only [Sys.allFinished, not_forall] at hnf
    obtain ⟨th, hth, hnf⟩ := hnf
    obtain ⟨k, hk⟩ := List.getElem?_of_mem hth
    exact Sys.can_step hinv hsafe hk (by simpa using hnf)
  · obtain ⟨_, hwf, _⟩ := Sys.inv_transfer hinv hk
    exact ⟨hwf.2.2.1, hwf.2.2.2⟩

theorem avoidance_no_circular_wait_witness :
    ∃ g, Sys.exec [(0, true), (1, true), (0, true), (0, true), (1, true), (0, false), (0, true)]
        (boot (fun _ => 100) ([tp3, tp4].map Request.transfer)) = some g ∧
      (¬ g.circularWait ∧
       7 ≤ 60 * 2 ∧
       (¬ g.allFinished → ∃ j g', g.step j true = some g') ∧
       (∃ sched' g', Sys.exec sched' g = some g' ∧ g'.allFinished) ∧
       (∀ (k : Nat) (t : TransferThread), g.threads[k]? = some (Thread.transfer t) →
          t.attempt ≤ max_retries ∧
            (t.pc = .finished → t.report = .completed ∨ t.report = .aborted))) :=
  ⟨_, rfl, avoidance_no_circular_wait (fun _ => 100) [tp3, tp4] (by decide)
    [(0, true), (1, true), (0, true), (0, true), (1, true), (0, false), (0, true)] _ rfl⟩

/-! ## Synchronized operations -/

theorem wrapLong_isLong (x : Int) : isLong (wrapLong x) := by
  unfold isLong wrapLong LONG_MIN LONG_MAX
  omega

theorem wrapLong_of_isLong {x : Int} (h : isLong x) : wrapLong x = x := by
  unfold isLong LONG_MIN LONG_MAX at h
  unfold wrapLong
  omega

theorem wrapLong_add_left (x y : Int) : wrapLong (wrapLong x + y) = wrapLong (x + y) := by
  unfold wrapLong
  omega

theorem sum_set_int :
    ∀ (l : List Int) (k : Nat) (a b : Int), l[k]? = some a → (l.set k b).sum = l.sum - a + b := by
  intro l
  induction l with
  | nil => intro k a b h; simp at h
  | cons c l ih =>
    intro k a b h
    cases k with
    | zero =>
      simp at h; subst h
      simp [List.set]; omega
    | succ k =>
      simp at h
      have := ih k a b h
      simp [List.set, this]; omega

theorem Sys.pending_step {g g' : Sys} {me : Nat} {th th' : Thread}
    (hth : g.threads[me]? = some th) (hset : g'.threads = g.threads.set me th')
    (i : Fin NUM_ACCOUNTS) :
    g'.pending i = g.pending i - th.pending i + th'.pending i := by
  simp only [Sys.pending, hset, List.map_set]
  exact sum_set_int _ me _ _ (by rw [List.getElem?_map, hth]; rfl)

theorem Sys.threads_op {ops : List OpParams} {g : Sys} (hinv : g.inv (ops.map Request.op))
    (hops : ∀ p ∈ ops, p.use_mutex ≠ 0) {k : Nat} {th : Thread}
    (hk : g.threads[k]? = some th) : ∃ t, th = .op t ∧ t.p.use_mutex ≠ 0 := by
  have hr := (hinv.2.2 k th hk).2
  rw [List.getElem?_map] at hr
  cases hp : ops[k]? with
  | none => simp [hp] at hr
  | some p =>
    simp [hp] at hr
    cases th with
    | op t =>
      simp [Thread.request] at hr
      exact ⟨t, rfl, hr ▸ hops p (List.getElem?_mem hp)⟩
    | transfer t => simp [Thread.request] at hr

theorem OpThread.step_effect (me : Nat) (t t' : OpThread) (s s' : Store)
    (hmx : t.p.use_mutex ≠ 0) (h : t.step me s = some (t', s')) :
    (t.pc = .write ∧ t'.pc = .unlock ∧ ∃ X, slot t.p.acc_id = some X ∧
      (s' X).balance = wrapLong (t.old_balance + t.p.amount) ∧
      ∀ i, i ≠ X → (s' i).balance = (s i).balance) ∨
    (t.pc ≠ .write ∧ (∀ i, (s' i).balance = (s i).balance) ∧
      (∀ i, t'.pending i = t.pending i) ∧
      ((t'.pc = .sleep ∨ t'.pc = .write) →
        (t.pc = .read ∧ ∀ i, slot t.p.acc_id = some i → t'.old_balance = (s i).balance) ∨
        ((t.pc = .sleep ∨ t.pc = .write) ∧ t'.old_balance = t.old_balance))) := by
  obtain ⟨p, pc, ob, nb⟩ := t
  simp only at hmx
  cases pc <;>
    simp [OpThread.step, pthread_mutex_lock, pthread_mutex_unlock, setBalance, getBalance,
      Option.bind_eq_some, Option.map_eq_some', hmx] at h
  case write =>
    obtain ⟨a, ha, rfl, rfl⟩ := h
    left
    refine ⟨rfl, rfl, a, ha, by simp, fun i hi => by simp [Function.update_noteq hi]⟩
  all_goals first
    | (obtain ⟨rfl, rfl⟩ := h)
    | (obtain ⟨a, ha, rfl, rfl⟩ := h)
    | (obtain ⟨a, ha, hm, rfl, rfl⟩ := h)
  all_goals right
  all_goals simp [OpThread.pending, Function.update_apply]
  all_goals try (intro i; split_ifs <;> simp_all)
  all_goals try (intro i hi; simp_all)

theorem Sys.opInv_step {bal : Fin NUM_ACCOUNTS → Int} {ops : List OpParams} {g g' : Sys}
    {me : Nat} {fr : Bool} (hinv : g.inv (ops.map Request.op))
    (hops : ∀ p ∈ ops, p.use_mutex ≠ 0)
    (hJ : g.opInv bal ops) (h : g.step me fr = some g') : g'.opInv bal ops := by
  obtain ⟨th, th', hth, hstep, hset⟩ := Sys.step_inv h
  have hlt : me < g.threads.length := (List.getElem?_eq_some_iff.mp hth).1
  obtain ⟨t, rfl, hmx⟩ := Sys.threads_op hinv hops hth
  obtain ⟨hok, hown⟩ := Sys.inv_op hinv hth
  simp only [Thread.step, Option.map_eq_some'] at hstep
  obtain ⟨⟨t', s1⟩, hst, heq⟩ := hstep
  simp only [Prod.mk.injEq] at heq
  obtain ⟨rfl, hs1⟩ := heq
  subst hs1
  have hpend := fun i => Sys.pending_step hth hset i
  simp only [Thread.pending] at hpend
  obtain ⟨hL, hS, hR⟩ := hJ
  have hother : ∀ (k : Nat) (u : OpThread), k ≠ me → g'.threads[k]? = some (Thread.op u) →
      g.threads[k]? = some (Thread.op u) := fun k u hk hu => by
    rwa [Sys.threads_step h k hk] at hu
  have hmine : g'.threads[me]? = some (Thread.op t') := by
    rw [hset, List.getElem?_set_self hlt]
  rcases OpThread.step_effect me t t' g.store g'.store hmx hst with
    ⟨hpc, hpc', X, hX, hbX, hbo⟩ | ⟨hpc, hb, hp, hrd⟩
  · have hold : t.old_balance = (g.store X).balance := hR me t X hth (Or.inr hpc) hX
    have hmeX : (g.store X).mutex = some me :=
      (hown X).mp (by simp [OpThread.holds, hpc, hmx, hX])
    refine ⟨fun i => ?_, fun i => ?_, fun k u i hk hu hi => ?_⟩
    · by_cases hi : i = X
      · subst hi; rw [hbX]; exact wrapLong_isLong _
      · rw [hbo i hi]; exact hL i
    · by_cases hi : i = X
      · subst hi
        have h1 : t.pending i = t.p.amount := by simp [OpThread.pending, hX, hpc]
        have h2 : t'.pending i = 0 := by simp [OpThread.pending, hpc']
        rw [hbX, hpend, h1, h2, wrapLong_add_left, ← hS i, hold]
        congr 1; omega
      · have hne : slot t.p.acc_id ≠ some i := fun e =>
          hi (Option.some.inj (e.symm.trans hX))
        have hp' : t'.p = t.p := OpThread.step_p me t t' g.store g'.store hst
        have h1 : t.pending i = 0 := by simp [OpThread.pending, hne]
        have h2 : t'.pending i = 0 := by simp [OpThread.pending, hp', hne]
        rw [hbo i hi, hpend, h1, h2, ← hS i]
        congr 1; omega
    · by_cases hkm : k = me
      · subst hkm
        rw [hmine] at hk
        obtain rfl := Thread.op.inj (Option.some.inj hk)
        rw [hpc'] at hu
        simp at hu
      · have hk0 := hother k u hkm hk
        by_cases hiX : i = X
        · subst hiX
          obtain ⟨u0, hu0, hux⟩ := Sys.threads_op hinv hops hk0
          obtain rfl := Thread.op.inj hu0
          have : (g.store i).mutex = some k :=
            ((Sys.inv_op hinv hk0).2 i).mp (by
              rcases hu with hu | hu <;> simp [OpThread.holds, hu, hux, hi])
          rw [hmeX] at this
          exact absurd (Option.some.inj this).symm hkm
        · rw [hbo i hiX]; exact hR k u i hk0 hu hi
  · refine ⟨fun i => by rw [hb i]; exact hL i, fun i => ?_, fun k u i hk hu hi => ?_⟩
    · rw [hb i, hpend, hp i, ← hS i]
      congr 1; omega
    · rw [hb i]
      by_cases hkm : k = me
      · subst hkm
        rw [hmine] at hk
        obtain rfl := Thread.op.inj (Option.some.inj hk)
        have hp' : t'.p = t.p := OpThread.step_p k t t' g.store g'.store hst
        rcases hrd hu with ⟨_, hread⟩ | ⟨hpc0, hsame⟩
        · exact hread i (hp' ▸ hi)
        · rw [hsame]; exact hR k t i hth hpc0 (hp' ▸ hi)
      · exact hR k u i (hother k u hkm hk) hu hi

theorem Sys.opInv_exec {bal : Fin NUM_ACCOUNTS → Int} {ops : List OpParams}
    (hops : ∀ p ∈ ops, p.use_mutex ≠ 0) (sched : List (Nat × Bool)) :
    ∀ {g g' : Sys}, g.inv (ops.map Request.op) → g.opInv bal ops →
      Sys.exec sched g = some g' → g'.opInv bal ops := by
  induction sched with
  | nil => intro g g' _ hJ h; simp [Sys.exec] at h; subst h; exact hJ
  | cons x rest ih =>
    intro g g' hinv hJ h
    obtain ⟨me, fr⟩ := x
    simp only [Sys.exec, Option.bind_eq_some] at h
    obtain ⟨g1, h1, h2⟩ := h
    exact ih (Sys.inv_step hinv h1) (Sys.opInv_step hinv hops hJ h1) h2

theorem boot_pending (bal : Fin NUM_ACCOUNTS → Int) (ops : List OpParams)
    (i : Fin NUM_ACCOUNTS) : (boot bal (ops.map Request.op)).pending i = amountOn ops i := by
  simp only [Sys.pending, boot, amountOn, List.map_map]
  congr 1
  apply List.map_congr_left
  intro p _
  simp [Request.spawn, Thread.pending, OpThread.pending, OpThread.start]

theorem boot_opInv (bal : Fin NUM_ACCOUNTS → Int) (hbal : ∀ i, isLong (bal i))
    (ops : List OpParams) : (boot bal (ops.map Request.op)).opInv bal ops := by
  refine ⟨fun i => hbal i, fun i => by rw [boot_pending]; rfl, fun k t i hk hpc _ => ?_⟩
  simp only [boot, List.map_map, List.getElem?_map, Option.map_eq_some'] at hk
  obtain ⟨p, _, hp⟩ := hk
  simp only [Function.comp, Request.spawn] at hp
  obtain rfl := Thread.op.inj hp
  simp [OpThread.start] at hpc

theorem Sys.pending_finished {g : Sys} (hfin : g.allFinished) (i : Fin NUM_ACCOUNTS) :
    g.pending i = 0 := by
  unfold Sys.pending
  apply List.sum_eq_zero
  intro x hx
  obtain ⟨th, hth, rfl⟩ := List.mem_map.mp hx
  have hf := hfin th hth
  cases th with
  | op t =>
    have : t.pc = .finished := by simpa [Thread.finished] using hf
    simp [Thread.pending, OpThread.pending, this]
  | transfer t => rfl

/-- Final balances of a population of synchronized operations, for every schedule. -/
theorem sync_ops_balance (bal : Fin NUM_ACCOUNTS → Int) (hbal : ∀ i, isLong (bal i))
    (ops : List OpParams) (hops : ∀ p ∈ ops, p.use_mutex ≠ 0)
    (sched : List (Nat × Bool)) (g : Sys)
    (h : Sys.exec sched (boot bal (ops.map Request.op)) = some g) (hfin : g.allFinished)
    (i : Fin NUM_ACCOUNTS) : (g.store i).balance = wrapLong (bal i + amountOn ops i) := by
  obtain ⟨hL, hS, _⟩ := Sys.opInv_exec hops sched (boot_inv bal _) (boot_opInv bal hbal ops) h
  have := hS i
  rw [Sys.pending_finished hfin, Int.add_zero, wrapLong_of_isLong (hL i)] at this
  exact this

theorem amountOn_single (X : Fin NUM_ACCOUNTS) (ops : List OpParams)
    (h : ∀ p ∈ ops, slot p.acc_id = some X) : amountOn ops X = (ops.map OpParams.amount).sum := by
  unfold amountOn
  congr 1
  apply List.map_congr_left
  intro p hp
  simp [h p hp]

/-- C6 (amended). For every initial store of `long` balances, every list of
synchronized operation requests on one account `X`, and every schedule that runs
all workers to completion, the final balance of `X` is the initial balance plus the
sum of all amounts, reduced modulo 2^64 into the range of `long`; it is exactly the
initial balance plus the sum whenever that value is representable as a `long`.
Such a schedule exists. -/
theorem synchronized_ops_final_balance (bal : Fin NUM_ACCOUNTS → Int)
    (hbal : ∀ i, isLong (bal i)) (X : Fin NUM_ACCOUNTS) (ops : List OpParams)
    (hops : ∀ p ∈ ops, p.use_mutex ≠ 0 ∧ slot p.acc_id = some X)
    (sched : List (Nat × Bool)) (g : Sys)
    (h : Sys.exec sched (boot bal (ops.map Request.op)) = some g) (hfin : g.allFinished) :
    (g.store X).balance = wrapLong (bal X + (ops.map OpParams.amount).sum) ∧
    (isLong (bal X + (ops.map OpParams.amount).sum) →
      (g.store X).balance = bal X + (ops.map OpParams.amount).sum) ∧
    (∃ sched' g', Sys.exec sched' (boot bal (ops.map Request.op)) = some g' ∧
      g'.allFinished) := by
  have hb := sync_ops_balance bal hbal ops (fun p hp => (hops p hp).1) sched g h hfin X
  rw [amountOn_single X ops (fun p hp => (hops p hp).2)] at hb
  refine ⟨hb, fun hl => by rw [hb, wrapLong_of_isLong hl], ?_⟩
  have hsafe : ∀ r ∈ ops.map Request.op, r.safe := by
    intro r hr
    obtain ⟨p, hp, rfl⟩ := List.mem_map.mp hr
    simp [Request.safe, (hops p hp).2]
  exact Sys.can_finish hsafe _ _ (Nat.le_refl _) (boot_inv bal _)

theorem synchronized_ops_final_balance_witness :
    ∃ g, Sys.exec [(0, true), (1, true), (1, true), (1, true), (1, true), (1, true), (1, true),
                   (0, true), (0, true), (0, true), (0, true), (0, true)]
        (boot (fun _ => 100) ([⟨3, 0, 50, 1⟩, ⟨4, 0, -50, 1⟩].map Request.op)) = some g ∧
      g.allFinished ∧
      ((g.store 0).balance = wrapLong (100 + ([⟨3, 0, 50, 1⟩, ⟨4, 0, -50, 1⟩].map OpParams.amount).sum) ∧
       (isLong (100 + ([⟨3, 0, 50, 1⟩, ⟨4, 0, -50, 1⟩].map OpParams.amount).sum) →
          (g.store 0).balance = 100 + ([⟨3, 0, 50, 1⟩, ⟨4, 0, -50, 1⟩].map OpParams.amount).sum) ∧
       (∃ sched' g', Sys.exec sched'
          (boot (fun _ => 100) ([⟨3, 0, 50, 1⟩, ⟨4, 0, -50, 1⟩].map Request.op)) = some g' ∧
          g'.allFinished)) :=
  ⟨_, rfl, by decide,
    synchronized_ops_final_balance (fun _ => 100) (fun _ => (by decide : isLong 100)) 0
      [⟨3, 0, 50, 1⟩, ⟨4, 0, -50, 1⟩] (by decide)
      [(0, true), (1, true), (1, true), (1, true), (1, true), (1, true), (1, true),
       (0, true), (0, true), (0, true), (0, true), (0, true)] _ rfl (by decide)⟩

/-- Counterexample to C6 as stated: one synchronized deposit of 1 on a balance of
`LONG_MAX` runs to completion and leaves `LONG_MIN`, not `LONG_MAX + 1`, which no
`long` equals. -/
theorem synchronized_ops_overflow :
    ∃ g, Sys.exec [(0, true), (0, true), (0, true), (0, true), (0, true), (0, true)]
        (boot (fun _ => LONG_MAX) ([⟨1, 0, 1, 1⟩].map Request.op)) = some g ∧
      g.allFinished ∧ (g.store 0).balance = LONG_MIN ∧
      (g.store 0).balance ≠ LONG_MAX + ([⟨1, 0, 1, 1⟩].map OpParams.amount).sum ∧
      (∀ v, isLong v → v ≠ LONG_MAX + ([⟨1, 0, 1, 1⟩].map OpParams.amount).sum) :=
  ⟨_, rfl, by decide, by decide, by decide, fun v hv => by
    have e : ([⟨1, 0, 1, 1⟩].map OpParams.amount).sum = 1 := by decide
    rw [e]
    unfold isLong at hv
    unfold LONG_MAX at hv ⊢
    omega⟩

/-- Phase 2 scenario: five accounts at 100, one synchronized +50 and one
synchronized -50 per account; whatever the schedule, when all ten workers have
finished every account holds 100 and the store-wide sum is 500. -/
theorem phase2_balances (sched : List (Nat × Bool)) (g : Sys)
    (h : Sys.exec sched (boot (fun _ => 100) (phase2Ops.map Request.op)) = some g)
    (hfin : g.allFinished) :
    (∀ i, (g.store i).balance = 100) ∧
    (g.store 0).balance + (g.store 1).balance + (g.store 2).balance + (g.store 3).balance +
      (g.store 4).balance = 500 := by
  have hall : ∀ i, (g.store i).balance = 100 := by
    intro i
    have hb := sync_ops_balance (fun _ => 100) (fun _ => (by decide : isLong 100)) phase2Ops (by decide)
      sched g h hfin i
    have key : ∀ j : Fin NUM_ACCOUNTS, wrapLong (100 + amountOn phase2Ops j) = 100 := by
      decide
    rw [hb]
    exact key i
  refine ⟨hall, ?_⟩
  rw [hall 0, hall 1, hall 2, hall 3, hall 4]
  rfl

/-! ## Results of a transfer run alone -/

theorem firstOk_some {ok : Nat → Bool} : ∀ {d k j : Nat}, firstOk ok k d = some j →
    k ≤ j ∧ j < k + d ∧ ok j = true ∧ ∀ i, k ≤ i → i < j → ok i = false := by
  intro d
  induction d with
  | zero => intro k j h; simp [firstOk] at h
  | succ d ih =>
    intro k j h
    simp only [firstOk] at h
    split_ifs at h with hk
    · obtain rfl := Option.some.inj h
      exact ⟨Nat.le_refl _, by omega, hk, fun i h1 h2 => by omega⟩
    · obtain ⟨h1, h2, h3, h4⟩ := ih h
      refine ⟨by omega, by omega, h3, fun i hi1 hi2 => ?_⟩
      by_cases e : i = k
      · subst e; simpa using hk
      · exact h4 i (by omega) hi2

theorem firstOk_none {ok : Nat → Bool} : ∀ {d k : Nat}, firstOk ok k d = none →
    ∀ i, k ≤ i → i < k + d → ok i = false := by
  intro d
  induction d with
  | zero => intro k _ i h1 h2; omega
  | succ d ih =>
    intro k h i h1 h2
    simp only [firstOk] at h
    split_ifs at h with hk
    by_cases e : i = k
    · subst e; simpa using hk
    · exact ih h i (by omega) (by omega)

theorem firstOk_of_least {ok : Nat → Bool} {d : Nat} {k j : Nat} (h1 : k ≤ j) (h2 : j < k + d)
    (h3 : ok j = true) (h4 : ∀ i, k ≤ i → i < j → ok i = false) : firstOk ok k d = some j := by
  cases h : firstOk ok k d with
  | none => have := firstOk_none h j h1 h2; simp [h3] at this
  | some j' =>
    obtain ⟨a1, a2, a3, a4⟩ := firstOk_some h
    rcases Nat.lt_trichotomy j j' with hlt | heq | hgt
    · have := a4 j h1 hlt; simp [h3] at this
    · rw [heq]
    · have := h4 j' a1 hgt; simp [a3] at this

theorem firstOk_eq_none {ok : Nat → Bool} {d k : Nat}
    (h : ∀ i, k ≤ i → i < k + d → ok i = false) : firstOk ok k d = none := by
  cases hf : firstOk ok k d with
  | none => rfl
  | some j =>
    obtain ⟨a1, a2, a3, _⟩ := firstOk_some hf
    have := h j a1 a2
    simp [a3] at this

theorem applyTransfer_balance_from (s : Store) {X Y : Fin NUM_ACCOUNTS} (hXY : X ≠ Y) (a : Int) :
    (applyTransfer s X Y a X).balance = wrapLong ((s X).balance - a) := by
  simp [applyTransfer, setBalance, getBalance, Function.update_noteq hXY]

theorem applyTransfer_balance_to (s : Store) {X Y : Fin NUM_ACCOUNTS} (hXY : X ≠ Y) (a : Int) :
    (applyTransfer s X Y a Y).balance = wrapLong ((s Y).balance + a) := by
  have hYX : Y ≠ X := fun e => hXY e.symm
  simp [applyTransfer, setBalance, getBalance, Function.update_noteq hYX]

theorem applyTransfer_other (s : Store) (X Y : Fin NUM_ACCOUNTS) (a : Int)
    {i : Fin NUM_ACCOUNTS} (hX : i ≠ X) (hY : i ≠ Y) : applyTransfer s X Y a i = s i := by
  simp [applyTransfer, setBalance, Function.update_noteq hX, Function.update_noteq hY]

theorem applyTransfer_mutex (s : Store) (X Y : Fin NUM_ACCOUNTS) (a : Int)
    (i : Fin NUM_ACCOUNTS) : (applyTransfer s X Y a i).mutex = (s i).mutex := by
  simp only [applyTransfer, setBalance, getBalance, Function.update_apply]
  split_ifs <;> simp_all

theorem slot_ne {a b : Int} {X Y : Fin NUM_ACCOUNTS} (ha : slot a = some X) (hb : slot b = some Y)
    (hXY : X ≠ Y) : a ≠ b := by
  intro e
  rw [e, hb] at ha
  exact hXY (Option.some.inj ha).symm

/-- Result of a deadlock-avoiding transfer run alone, when some attempt succeeds. -/
theorem perform_transfer_success (oracle : Nat → Bool) (p : TransferParams) (s : Store)
    (X Y : Fin NUM_ACCOUNTS) (hX : slot p.from_acc = some X) (hY : slot p.to_acc = some Y)
    (hav : p.use_deadlock_avoidance ≠ 0)
    (hfreeX : (s X).mutex = none) (hfreeY : (s Y).mutex = none)
    {j : Nat} (hj : j < 5) (hok : attemptOk p oracle j = true)
    (hleast : ∀ i, i < j → attemptOk p oracle i = false) :
    (perform_transfer p oracle s).2 = applyTransfer s X Y p.amount ∧
    (perform_transfer p oracle s).1.pc = .finished ∧
    (perform_transfer p oracle s).1.report = .completed ∧
    (perform_transfer p oracle s).1.attempt = j + 1 := by
  rw [perform_transfer_avoid oracle p s X Y hX hY hav hfreeX hfreeY,
    firstOk_of_least (Nat.zero_le _) (by omega) hok (fun i _ hi => hleast i hi)]
  exact ⟨rfl, rfl, rfl, rfl⟩

/-- Result of a deadlock-avoiding transfer run alone, when every attempt fails. -/
theorem perform_transfer_abort (oracle : Nat → Bool) (p : TransferParams) (s : Store)
    (X Y : Fin NUM_ACCOUNTS) (hX : slot p.from_acc = some X) (hY : slot p.to_acc = some Y)
    (hav : p.use_deadlock_avoidance ≠ 0)
    (hfreeX : (s X).mutex = none) (hfreeY : (s Y).mutex = none)
    (hfail : ∀ i, i < 5 → attemptOk p oracle i = false) :
    (perform_transfer p oracle s).2 = s ∧
    (perform_transfer p oracle s).1.pc = .finished ∧
    (perform_transfer p oracle s).1.report = .aborted ∧
    (perform_transfer p oracle s).1.attempt = 5 := by
  rw [perform_transfer_avoid oracle p s X Y hX hY hav hfreeX hfreeY,
    firstOk_eq_none (fun i _ hi => hfail i (by omega))]
  exact ⟨rfl, rfl, rfl, rfl⟩

/-- Either some attempt is the first to succeed or all five attempts fail. -/
theorem attempts_cases (ok : Nat → Bool) :
    (∃ j, j < 5 ∧ ok j = true ∧ ∀ i, i < j → ok i = false) ∨ (∀ i, i < 5 → ok i = false) := by
  cases h : firstOk ok 0 5 with
  | none => exact Or.inr (fun i hi => firstOk_none h i (Nat.zero_le _) (by omega))
  | some j =>
    obtain ⟨_, a2, a3, a4⟩ := firstOk_some h
    exact Or.inl ⟨j, by omega, a3, fun i hi => a4 i (Nat.zero_le _) hi⟩

/-- C4. The deadlock-avoiding runner computes `first = min(from, to)` and
`second = max(from, to)`: the first step of a worker in deadlock-avoiding mode
stores that pair; the pair is the same for a transfer from A to B and for a
transfer from B to A; and `first ≤ second`. -/
theorem lock_order_canonical (p q : TransferParams) (me : Nat) (fr : Bool) (s : Store)
    (hp : p.use_deadlock_avoidance ≠ 0) (hq : q.use_deadlock_avoidance ≠ 0)
    (hrev : q.from_acc = p.to_acc ∧ q.to_acc = p.from_acc) :
    ∃ t u, (TransferThread.start p).step me fr s = some (t, s) ∧
      (TransferThread.start q).step me fr s = some (u, s) ∧
      t.first = min p.from_acc p.to_acc ∧ t.second = max p.from_acc p.to_acc ∧
      (t.first, t.second) = (u.first, u.second) ∧ t.first ≤ t.second := by
  refine ⟨{ TransferThread.start p with
              pc := .loop_head, first := (lockOrder p.from_acc p.to_acc).1,
              second := (lockOrder p.from_acc p.to_acc).2 },
    { TransferThread.start q with
        pc := .loop_head, first := (lockOrder q.from_acc q.to_acc).1,
        second := (lockOrder q.from_acc q.to_acc).2 },
    by simp [TransferThread.step, TransferThread.start, hp],
    by simp [TransferThread.step, TransferThread.start, hq], ?_, ?_, ?_, ?_⟩
  all_goals simp only [lockOrder, hrev.1, hrev.2]
  all_goals split_ifs
  all_goals first
    | omega
    | (simp only [Prod.mk.injEq] <;> omega)

theorem lock_order_canonical_witness :
    ∃ t u, (TransferThread.start tp3).step 0 true (initStore fun _ => 100) =
        some (t, initStore fun _ => 100) ∧
      (TransferThread.start tp4).step 0 true (initStore fun _ => 100) =
        some (u, initStore fun _ => 100) ∧
      t.first = min tp3.from_acc tp3.to_acc ∧ t.second = max tp3.from_acc tp3.to_acc ∧
      (t.first, t.second) = (u.first, u.second) ∧ t.first ≤ t.second :=
  lock_order_canonical tp3 tp4 0 true (initStore fun _ => 100) (by decide) (by decide)
    ⟨rfl, rfl⟩

/-- C5. A deadlock-avoiding `perform_transfer` with in-bounds account ids, run on
free mutexes with any sequence of outcomes of its non-blocking attempts, reaches
`pthread_exit` after at most `max_retries = 5` attempts; it reports completion
exactly when one of the first 5 attempts succeeds, having stopped at the first
successful attempt, and reports the abort exactly when all 5 attempts fail, having
made exactly 5 attempts. -/
theorem avoidance_attempts_bounded (oracle : Nat → Bool) (p : TransferParams) (s : Store)
    (X Y : Fin NUM_ACCOUNTS) (hX : slot p.from_acc = some X) (hY : slot p.to_acc = some Y)
    (hav : p.use_deadlock_avoidance ≠ 0)
    (hfreeX : (s X).mutex = none) (hfreeY : (s Y).mutex = none) :
    (perform_transfer p oracle s).1.pc = .finished ∧
    (perform_transfer p oracle s).1.attempt ≤ max_retries ∧
    ((perform_transfer p oracle s).1.report = .completed ↔
      ∃ k, k < max_retries ∧ attemptOk p oracle k = true) ∧
    ((perform_transfer p oracle s).1.report = .aborted ↔
      ∀ k, k < max_retries → attemptOk p oracle k = false) ∧
    (∀ k, k < max_retries → attemptOk p oracle k = true →
      (∀ i, i < k → attemptOk p oracle i = false) →
        (perform_transfer p oracle s).1.attempt = k + 1) ∧
    ((∀ k, k < max_retries → attemptOk p oracle k = false) →
      (perform_transfer p oracle s).1.attempt = max_retries) := by
  simp only [max_retries]
  rcases attempts_cases (attemptOk p oracle) with ⟨j, hj, hok, hleast⟩ | hfail
  · obtain ⟨_, h2, h3, h4⟩ :=
      perform_transfer_success oracle p s X Y hX hY hav hfreeX hfreeY hj hok hleast
    refine ⟨h2, by omega, ⟨fun _ => ⟨j, hj, hok⟩, fun _ => h3⟩, ⟨fun h => ?_, fun h => ?_⟩,
      fun k hk hkok hkl => ?_, fun h => ?_⟩
    · rw [h3] at h; cases h
    · have := h j hj; simp [hok] at this
    · rcases Nat.lt_trichotomy k j with hlt | heq | hgt
      · have := hleast k hlt; simp [hkok] at this
      · rw [h4, heq]
      · have := hkl j hgt; simp [hok] at this
    · have := h j hj; simp [hok] at this
  · obtain ⟨_, h2, h3, h4⟩ :=
      perform_transfer_abort oracle p s X Y hX hY hav hfreeX hfreeY hfail
    refine ⟨h2, by omega, ⟨fun h => ?_, fun ⟨k, hk, hkok⟩ => ?_⟩, ⟨fun _ => hfail, fun _ => h3⟩,
      fun k hk hkok _ => ?_, fun _ => h4⟩
    · rw [h3] at h; cases h
    · have := hfail k hk; simp [hkok] at this
    · have := hfail k hk; simp [hkok] at this

theorem avoidance_attempts_bounded_witness :
    (perform_transfer tp4 (fun k => decide (k = 2)) (initStore fun _ => 100)).1.pc = .finished ∧
    (perform_transfer tp4 (fun k => decide (k = 2)) (initStore fun _ => 100)).1.attempt
      ≤ max_retries ∧
    ((perform_transfer tp4 (fun k => decide (k = 2)) (initStore fun _ => 100)).1.report
        = .completed ↔
      ∃ k, k < max_retries ∧ attemptOk tp4 (fun k => decide (k = 2)) k = true) ∧
    ((perform_transfer tp4 (fun k => decide (k = 2)) (initStore fun _ => 100)).1.report
        = .aborted ↔
      ∀ k, k < max_retries → attemptOk tp4 (fun k => decide (k = 2)) k = false) ∧
    (∀ k, k < max_retries → attemptOk tp4 (fun k => decide (k = 2)) k = true →
      (∀ i, i < k → attemptOk tp4 (fun k => decide (k = 2)) i = false) →
        (perform_transfer tp4 (fun k => decide (k = 2)) (initStore fun _ => 100)).1.attempt
          = k + 1) ∧
    ((∀ k, k < max_retries → attemptOk tp4 (fun k => decide (k = 2)) k = false) →
      (perform_transfer tp4 (fun k => decide (k = 2)) (initStore fun _ => 100)).1.attempt
        = max_retries) :=
  avoidance_attempts_bounded (fun k => decide (k = 2)) tp4 (initStore fun _ => 100) 1 0
    rfl rfl (by decide) rfl rfl

theorem completed_has_success {oracle : Nat → Bool} {p : TransferParams} {s : Store}
    {X Y : Fin NUM_ACCOUNTS} (hX : slot p.from_acc = some X) (hY : slot p.to_acc = some Y)
    (hav : p.use_deadlock_avoidance ≠ 0)
    (hfreeX : (s X).mutex = none) (hfreeY : (s Y).mutex = none)
    (hsucc : (perform_transfer p oracle s).1.report = .completed) :
    (perform_transfer p oracle s).2 = applyTransfer s X Y p.amount := by
  rcases attempts_cases (attemptOk p oracle) with ⟨j, hj, hok, hleast⟩ | hfail
  · exact (perform_transfer_success oracle p s X Y hX hY hav hfreeX hfreeY hj hok hleast).1
  · have := (perform_transfer_abort oracle p s X Y hX hY hav hfreeX hfreeY hfail).2.2.1
    rw [this] at hsucc
    cases hsucc

/-- C1 (amended). A deadlock-avoiding transfer of `a` between distinct in-bounds
accounts X (source) and Y (destination) that completes leaves balance(X) equal to
the old balance(X) minus `a` and balance(Y) equal to the old balance(Y) plus `a`,
each reduced modulo 2^64 into the range of `long`; every other account and every
mutex is as before. When `balance(X) - a` and `balance(Y) + a` are representable
as `long`, balance(X) is exactly `a` lower, balance(Y) exactly `a` higher and
their sum is unchanged. The debit is on `from` and the credit on `to` whichever
of the two is locked first. -/
theorem avoidance_transfer_effect (oracle : Nat → Bool) (p : TransferParams) (s : Store)
    (X Y : Fin NUM_ACCOUNTS) (hX : slot p.from_acc = some X) (hY : slot p.to_acc = some Y)
    (hXY : X ≠ Y) (hav : p.use_deadlock_avoidance ≠ 0)
    (hfreeX : (s X).mutex = none) (hfreeY : (s Y).mutex = none)
    (hsucc : (perform_transfer p oracle s).1.report = .completed) :
    ((perform_transfer p oracle s).2 X).balance = wrapLong ((s X).balance - p.amount) ∧
    ((perform_transfer p oracle s).2 Y).balance = wrapLong ((s Y).balance + p.amount) ∧
    (∀ i, i ≠ X → i ≠ Y → (perform_transfer p oracle s).2 i = s i) ∧
    (∀ i, ((perform_transfer p oracle s).2 i).mutex = (s i).mutex) ∧
    (isLong ((s X).balance - p.amount) → isLong ((s Y).balance + p.amount) →
      ((perform_transfer p oracle s).2 X).balance = (s X).balance - p.amount ∧
      ((perform_transfer p oracle s).2 Y).balance = (s Y).balance + p.amount ∧
      ((perform_transfer p oracle s).2 X).balance + ((perform_transfer p oracle s).2 Y).balance
        = (s X).balance + (s Y).balance) := by
  rw [completed_has_success hX hY hav hfreeX hfreeY hsucc]
  refine ⟨applyTransfer_balance_from s hXY _, applyTransfer_balance_to s hXY _,
    fun i h1 h2 => applyTransfer_other s X Y _ h1 h2, applyTransfer_mutex s X Y _,
    fun h1 h2 => ?_⟩
  rw [applyTransfer_balance_from s hXY, applyTransfer_balance_to s hXY,
    wrapLong_of_isLong h1, wrapLong_of_isLong h2]
  exact ⟨rfl, rfl, by omega⟩

theorem avoidance_transfer_effect_witness :
    (perform_transfer tp4 (fun _ => true) (initStore fun _ => 100)).1.report = .completed ∧
    (((perform_transfer tp4 (fun _ => true) (initStore fun _ => 100)).2 1).balance
        = wrapLong ((initStore (fun _ => 100) 1).balance - tp4.amount) ∧
     ((perform_transfer tp4 (fun _ => true) (initStore fun _ => 100)).2 0).balance
        = wrapLong ((initStore (fun _ => 100) 0).balance + tp4.amount) ∧
     (∀ i, i ≠ 1 → i ≠ 0 →
        (perform_transfer tp4 (fun _ => true) (initStore fun _ => 100)).2 i
          = initStore (fun _ => 100) i) ∧
     (∀ i, ((perform_transfer tp4 (fun _ => true) (initStore fun _ => 100)).2 i).mutex
        = (initStore (fun _ => 100) i).mutex) ∧
     (isLong ((initStore (fun _ => 100) 1).balance - tp4.amount) →
      isLong ((initStore (fun _ => 100) 0).balance + tp4.amount) →
        ((perform_transfer tp4 (fun _ => true) (initStore fun _ => 100)).2 1).balance
          = (initStore (fun _ => 100) 1).balance - tp4.amount ∧
        ((perform_transfer tp4 (fun _ => true) (initStore fun _ => 100)).2 0).balance
          = (initStore (fun _ => 100) 0).balance + tp4.amount ∧
        ((perform_transfer tp4 (fun _ => true) (initStore fun _ => 100)).2 1).balance +
          ((perform_transfer tp4 (fun _ => true) (initStore fun _ => 100)).2 0).balance
          = (initStore (fun _ => 100) 1).balance + (initStore (fun _ => 100) 0).balance)) :=
  ⟨by decide,
    avoidance_transfer_effect (fun _ => true) tp4 (initStore fun _ => 100) 1 0 rfl rfl
      (by decide) (by decide) rfl rfl (by decide)⟩

/-- Counterexample to C1 as stated: a completed deadlock-avoiding transfer of 1 from
account 0, whose balance is `LONG_MIN`, to account 1 leaves `LONG_MAX` on account 0:
the balance is not 1 lower and the sum of the two balances has changed. No `long`
is 1 lower than `LONG_MIN`, so no stored value could meet the claim there. -/
theorem avoidance_transfer_overflow :
    (perform_transfer ⟨1, 0, 1, 1, 1⟩ (fun _ => true) lowStore).1.report = .completed ∧
    ((perform_transfer ⟨1, 0, 1, 1, 1⟩ (fun _ => true) lowStore).2 0).balance = LONG_MAX ∧
    ((perform_transfer ⟨1, 0, 1, 1, 1⟩ (fun _ => true) lowStore).2 0).balance
      ≠ (lowStore 0).balance - 1 ∧
    ((perform_transfer ⟨1, 0, 1, 1, 1⟩ (fun _ => true) lowStore).2 0).balance +
      ((perform_transfer ⟨1, 0, 1, 1, 1⟩ (fun _ => true) lowStore).2 1).balance
      ≠ (lowStore 0).balance + (lowStore 1).balance ∧
    (∀ v, isLong v → v ≠ (lowStore 0).balance - 1) := by
  refine ⟨by decide, by decide, by decide, by decide, fun v hv => ?_⟩
  have e : (lowStore 0).balance = LONG_MIN := by decide
  rw [e]
  unfold isLong at hv
  unfold LONG_MIN at hv ⊢
  omega

/-- C2. A deadlock-avoiding `perform_transfer` with in-bounds account ids, run on
free mutexes, all of whose non-blocking attempts fail, reaches `pthread_exit`
reporting the abort after `max_retries` attempts; the store is exactly as before
the call: every balance is unchanged and every mutex is in its former state, so
the worker holds neither of the two mutexes. -/
theorem avoidance_abort_untouched (oracle : Nat → Bool) (p : TransferParams) (s : Store)
    (X Y : Fin NUM_ACCOUNTS) (hX : slot p.from_acc = some X) (hY : slot p.to_acc = some Y)
    (hav : p.use_deadlock_avoidance ≠ 0)
    (hfreeX : (s X).mutex = none) (hfreeY : (s Y).mutex = none)
    (hfail : ∀ k, k < max_retries → attemptOk p oracle k = false) :
    (perform_transfer p oracle s).1.pc = .finished ∧
    (perform_transfer p oracle s).1.report = .aborted ∧
    (perform_transfer p oracle s).2 = s ∧
    (∀ i, ((perform_transfer p oracle s).2 i).balance = (s i).balance) ∧
    (∀ i, ((perform_transfer p oracle s).2 i).mutex = (s i).mutex) ∧
    ((perform_transfer p oracle s).2 X).mutex = none ∧
    ((perform_transfer p oracle s).2 Y).mutex = none := by
  obtain ⟨h1, h2, h3, _⟩ :=
    perform_transfer_abort oracle p s X Y hX hY hav hfreeX hfreeY hfail
  rw [h1]
  exact ⟨h2, h3, rfl, fun _ => rfl, fun _ => rfl, hfreeX, hfreeY⟩

theorem avoidance_abort_untouched_witness :
    (∀ k, k < max_retries → attemptOk tp3 (fun _ => false) k = false) ∧
    ((perform_transfer tp3 (fun _ => false) (initStore fun _ => 100)).1.pc = .finished ∧
     (perform_transfer tp3 (fun _ => false) (initStore fun _ => 100)).1.report = .aborted ∧
     (perform_transfer tp3 (fun _ => false) (initStore fun _ => 100)).2
        = initStore (fun _ => 100) ∧
     (∀ i, ((perform_transfer tp3 (fun _ => false) (initStore fun _ => 100)).2 i).balance
        = (initStore (fun _ => 100) i).balance) ∧
     (∀ i, ((perform_transfer tp3 (fun _ => false) (initStore fun _ => 100)).2 i).mutex
        = (initStore (fun _ => 100) i).mutex) ∧
     ((perform_transfer tp3 (fun _ => false) (initStore fun _ => 100)).2 0).mutex = none ∧
     ((perform_transfer tp3 (fun _ => false) (initStore fun _ => 100)).2 1).mutex = none) :=
  ⟨fun _ _ => rfl,
    avoidance_abort_untouched (fun _ => false) tp3 (initStore fun _ => 100) 0 1 rfl rfl
      (by decide) rfl rfl (fun _ _ => rfl)⟩

theorem wrapLong_sub_left (x y : Int) : wrapLong (wrapLong x - y) = wrapLong (x - y) := by
  unfold wrapLong
  omega

theorem attemptOk_of_ne {p : TransferParams} (h : p.from_acc ≠ p.to_acc) (oracle : Nat → Bool)
    (k : Nat) : attemptOk p oracle k = oracle k := by
  simp [attemptOk, h]

/-- A deadlock-avoiding transfer between distinct in-bounds accounts, run alone on
free mutexes with at least one outside-free attempt among the first five,
completes and leaves the store `applyTransfer` describes. -/
theorem perform_transfer_completes (oracle : Nat → Bool) (p : TransferParams) (s : Store)
    (X Y : Fin NUM_ACCOUNTS) (hX : slot p.from_acc = some X) (hY : slot p.to_acc = some Y)
    (hXY : X ≠ Y) (hav : p.use_deadlock_avoidance ≠ 0)
    (hfreeX : (s X).mutex = none) (hfreeY : (s Y).mutex = none)
    (hok : ∃ k, k < max_retries ∧ oracle k = true) :
    (perform_transfer p oracle s).2 = applyTransfer s X Y p.amount ∧
    (perform_transfer p oracle s).1.pc = .finished ∧
    (perform_transfer p oracle s).1.report = .completed := by
  have hne := slot_ne hX hY hXY
  obtain ⟨k, hk, hko⟩ := hok
  rcases attempts_cases (attemptOk p oracle) with ⟨j, hj, hjok, hleast⟩ | hfail
  · obtain ⟨h1, h2, h3, _⟩ :=
      perform_transfer_success oracle p s X Y hX hY hav hfreeX hfreeY hj hjok hleast
    exact ⟨h1, h2, h3⟩
  · have := hfail k hk
    rw [attemptOk_of_ne hne, hko] at this
    cases this

/-- Result of a naive `perform_transfer(&p)` between distinct in-bounds accounts run
alone on free mutexes: it completes and leaves the store `applyTransfer` describes. -/
theorem perform_transfer_naive (oracle : Nat → Bool) (p : TransferParams) (s : Store)
    (X Y : Fin NUM_ACCOUNTS) (hX : slot p.from_acc = some X) (hY : slot p.to_acc = some Y)
    (hXY : X ≠ Y) (hn : p.use_deadlock_avoidance = 0)
    (hfreeX : (s X).mutex = none) (hfreeY : (s Y).mutex = none) :
    (perform_transfer p oracle s).2 = applyTransfer s X Y p.amount ∧
    (perform_transfer p oracle s).1.pc = .finished ∧
    (perform_transfer p oracle s).1.report = .completed := by
  have hYX : Y ≠ X := fun e => hXY e.symm
  simp [perform_transfer, soloRun, soloStep, TransferThread.step, TransferThread.start, hn, hX,
    hY, pthread_mutex_lock, pthread_mutex_unlock, hfreeX, hfreeY, Function.update_noteq hXY,
    Function.update_noteq hYX, getBalance, setBalance, applyTransfer]
  funext i
  simp only [Function.update_apply]
  split_ifs <;> simp_all

/-- C3 (amended). Neither the driver nor `perform_transfer` validates a request:
`pthread_create` starts the worker for whatever request it is given, and a
transfer, naive or deadlock-avoiding, with in-bounds distinct account ids and a
negative amount `a` runs like any other. Run on free mutexes (in deadlock-avoiding
mode: with an attempt that finds `second` free) it completes, with balance(from) =
old balance(from) - a and balance(to) = old balance(to) + a modulo 2^64: when
these are representable the source account has gained `-a` and the destination
has lost `-a`. -/
theorem negative_transfer_is_executed (oracle : Nat → Bool) (p : TransferParams) (s : Store)
    (X Y : Fin NUM_ACCOUNTS) (hX : slot p.from_acc = some X) (hY : slot p.to_acc = some Y)
    (hXY : X ≠ Y) (hfreeX : (s X).mutex = none) (hfreeY : (s Y).mutex = none)
    (hneg : p.amount < 0)
    (hok : p.use_deadlock_avoidance ≠ 0 → ∃ k, k < max_retries ∧ oracle k = true) :
    (Request.transfer p).spawn = Thread.transfer (TransferThread.start p) ∧
    (perform_transfer p oracle s).1.pc = .finished ∧
    (perform_transfer p oracle s).1.report = .completed ∧
    ((perform_transfer p oracle s).2 X).balance = wrapLong ((s X).balance - p.amount) ∧
    ((perform_transfer p oracle s).2 Y).balance = wrapLong ((s Y).balance + p.amount) ∧
    (isLong ((s X).balance - p.amount) →
      (s X).balance < ((perform_transfer p oracle s).2 X).balance) ∧
    (isLong ((s Y).balance + p.amount) →
      ((perform_transfer p oracle s).2 Y).balance < (s Y).balance) := by
  have hrun : (perform_transfer p oracle s).2 = applyTransfer s X Y p.amount ∧
      (perform_transfer p oracle s).1.pc = .finished ∧
      (perform_transfer p oracle s).1.report = .completed := by
    by_cases hav : p.use_deadlock_avoidance = 0
    · exact perform_transfer_naive oracle p s X Y hX hY hXY hav hfreeX hfreeY
    · exact perform_transfer_completes oracle p s X Y hX hY hXY hav hfreeX hfreeY (hok hav)
  obtain ⟨h1, h2, h3⟩ := hrun
  rw [h1]
  refine ⟨rfl, h2, h3, applyTransfer_balance_from s hXY _, applyTransfer_balance_to s hXY _,
    fun hl => ?_, fun hl => ?_⟩
  · rw [applyTransfer_balance_from s hXY, wrapLong_of_isLong hl]; omega
  · rw [applyTransfer_balance_to s hXY, wrapLong_of_isLong hl]; omega

theorem negative_transfer_is_executed_witness :
    ((-10 : Int) < 0 ∧ ((1 : Int) ≠ 0 → ∃ k, k < max_retries ∧ (fun _ => true) k = true)) ∧
    ((Request.transfer ⟨1, 0, 1, -10, 1⟩).spawn
        = Thread.transfer (TransferThread.start ⟨1, 0, 1, -10, 1⟩) ∧
     (perform_transfer ⟨1, 0, 1, -10, 1⟩ (fun _ => true) (initStore fun _ => 100)).1.pc
        = .finished ∧
     (perform_transfer ⟨1, 0, 1, -10, 1⟩ (fun _ => true) (initStore fun _ => 100)).1.report
        = .completed ∧
     ((perform_transfer ⟨1, 0, 1, -10, 1⟩ (fun _ => true) (initStore fun _ => 100)).2 0).balance
        = wrapLong ((initStore (fun _ => 100) 0).balance - (-10)) ∧
     ((perform_transfer ⟨1, 0, 1, -10, 1⟩ (fun _ => true) (initStore fun _ => 100)).2 1).balance
        = wrapLong ((initStore (fun _ => 100) 1).balance + (-10)) ∧
     (isLong ((initStore (fun _ => 100) 0).balance - (-10)) →
        (initStore (fun _ => 100) 0).balance <
          ((perform_transfer ⟨1, 0, 1, -10, 1⟩ (fun _ => true)
            (initStore fun _ => 100)).2 0).balance) ∧
     (isLong ((initStore (fun _ => 100) 1).balance + (-10)) →
        ((perform_transfer ⟨1, 0, 1, -10, 1⟩ (fun _ => true)
            (initStore fun _ => 100)).2 1).balance <
          (initStore (fun _ => 100) 1).balance)) :=
  ⟨⟨by decide, fun _ => ⟨0, by decide, rfl⟩⟩,
    negative_transfer_is_executed (fun _ => true) ⟨1, 0, 1, -10, 1⟩ (initStore fun _ => 100)
      0 1 rfl rfl (by decide) rfl rfl (by decide) (fun _ => ⟨0, by decide, rfl⟩)⟩

/-- Counterexample to C3 as stated: the request "transfer -10 from account 0 to
account 1" is not rejected: its worker is created, runs to `pthread_exit` reporting
completion, and has changed both balances, to 110 and 90. -/
theorem negative_transfer_not_rejected :
    (boot (fun _ => 100) [Request.transfer ⟨1, 0, 1, -10, 1⟩]).threads
      = [Thread.transfer (TransferThread.start ⟨1, 0, 1, -10, 1⟩)] ∧
    (perform_transfer ⟨1, 0, 1, -10, 1⟩ (fun _ => true) (initStore fun _ => 100)).1.pc
      = .finished ∧
    (perform_transfer ⟨1, 0, 1, -10, 1⟩ (fun _ => true) (initStore fun _ => 100)).1.report
      = .completed ∧
    ((perform_transfer ⟨1, 0, 1, -10, 1⟩ (fun _ => true) (initStore fun _ => 100)).2 0).balance
      = 110 ∧
    ((perform_transfer ⟨1, 0, 1, -10, 1⟩ (fun _ => true) (initStore fun _ => 100)).2 1).balance
      = 90 ∧
    (perform_transfer ⟨1, 0, 1, -10, 1⟩ (fun _ => true) (initStore fun _ => 100)).2
      ≠ initStore (fun _ => 100) := by
  refine ⟨rfl, by decide, by decide, by decide, by decide, fun h => ?_⟩
  have := congrArg (fun st : Store => (st 0).balance) h
  revert this
  decide

theorem applyTransfer_apply (s : Store) {X Y : Fin NUM_ACCOUNTS} (hXY : X ≠ Y) (a : Int)
    (i : Fin NUM_ACCOUNTS) :
    applyTransfer s X Y a i =
      if i = Y then { s Y with balance := wrapLong ((s Y).balance + a) }
      else if i = X then { s X with balance := wrapLong ((s X).balance - a) }
      else s i := by
  have hYX : Y ≠ X := fun e => hXY e.symm
  simp only [applyTransfer, setBalance, getBalance, Function.update_apply]
  split_ifs <;> simp_all

theorem applyTransfer_comm (s : Store) {A B : Fin NUM_ACCOUNTS} (hAB : A ≠ B) (a b : Int) :
    applyTransfer (applyTransfer s A B a) B A b = applyTransfer (applyTransfer s B A b) A B a := by
  have hBA : B ≠ A := fun e => hAB e.symm
  funext i
  simp only [applyTransfer_apply _ hAB, applyTransfer_apply _ hBA]
  by_cases h1 : i = A
  · subst h1
    simp [hAB, wrapLong_add_left, wrapLong_sub_left]
    congr 1; omega
  · by_cases h2 : i = B
    · subst h2
      simp [hBA, wrapLong_add_left, wrapLong_sub_left]
      congr 1; omega
    · simp [h1, h2]

/-- C8 (amended). For distinct in-bounds accounts A and B, a completed
deadlock-avoiding transfer of `a` from A to B and a completed deadlock-avoiding
transfer of `b` from B to A leave the same store in either order of execution,
with balance(A) = A0 - a + b and balance(B) = B0 + a - b reduced modulo 2^64 into
the range of `long`. When `A0 - a + b` and `B0 + a - b` are representable as
`long`, these are the exact balances and their sum is `A0 + B0`. -/
theorem opposite_transfers_commute (o1 o2 : Nat → Bool) (pAB pBA : TransferParams) (s : Store)
    (A B : Fin NUM_ACCOUNTS) (hA : slot pAB.from_acc = some A) (hB : slot pAB.to_acc = some B)
    (hrev : pBA.from_acc = pAB.to_acc ∧ pBA.to_acc = pAB.from_acc) (hAB : A ≠ B)
    (hav1 : pAB.use_deadlock_avoidance ≠ 0) (hav2 : pBA.use_deadlock_avoidance ≠ 0)
    (hfreeA : (s A).mutex = none) (hfreeB : (s B).mutex = none)
    (h1 : ∃ k, k < max_retries ∧ o1 k = true) (h2 : ∃ k, k < max_retries ∧ o2 k = true) :
    (perform_transfer pAB o1 s).1.report = .completed ∧
    (perform_transfer pBA o2 (perform_transfer pAB o1 s).2).1.report = .completed ∧
    (perform_transfer pBA o2 s).1.report = .completed ∧
    (perform_transfer pAB o1 (perform_transfer pBA o2 s).2).1.report = .completed ∧
    (perform_transfer pBA o2 (perform_transfer pAB o1 s).2).2
      = (perform_transfer pAB o1 (perform_transfer pBA o2 s).2).2 ∧
    ((perform_transfer pBA o2 (perform_transfer pAB o1 s).2).2 A).balance
      = wrapLong ((s A).balance - pAB.amount + pBA.amount) ∧
    ((perform_transfer pBA o2 (perform_transfer pAB o1 s).2).2 B).balance
      = wrapLong ((s B).balance + pAB.amount - pBA.amount) ∧
    (isLong ((s A).balance - pAB.amount + pBA.amount) →
     isLong ((s B).balance + pAB.amount - pBA.amount) →
      ((perform_transfer pBA o2 (perform_transfer pAB o1 s).2).2 A).balance
        = (s A).balance - pAB.amount + pBA.amount ∧
      ((perform_transfer pBA o2 (perform_transfer pAB o1 s).2).2 B).balance
        = (s B).balance + pAB.amount - pBA.amount ∧
      ((perform_transfer pBA o2 (perform_transfer pAB o1 s).2).2 A).balance +
        ((perform_transfer pBA o2 (perform_transfer pAB o1 s).2).2 B).balance
        = (s A).balance + (s B).balance) := by
  have hBA : B ≠ A := fun e => hAB e.symm
  have hA' : slot pBA.to_acc = some A := hrev.2 ▸ hA
  have hB' : slot pBA.from_acc = some B := hrev.1 ▸ hB
  obtain ⟨e1, _, r1⟩ :=
    perform_transfer_completes o1 pAB s A B hA hB hAB hav1 hfreeA hfreeB h1
  obtain ⟨e2, _, r2⟩ :=
    perform_transfer_completes o2 pBA s B A hB' hA' hBA hav2 hfreeB hfreeA h2
  obtain ⟨e3, _, r3⟩ :=
    perform_transfer_completes o2 pBA (applyTransfer s A B pAB.amount) B A hB' hA' hBA hav2
      (by rw [applyTransfer_mutex]; exact hfreeB) (by rw [applyTransfer_mutex]; exact hfreeA) h2
  obtain ⟨e4, _, r4⟩ :=
    perform_transfer_completes o1 pAB (applyTransfer s B A pBA.amount) A B hA hB hAB hav1
      (by rw [applyTransfer_mutex]; exact hfreeA) (by rw [applyTransfer_mutex]; exact hfreeB) h1
  rw [e1, e2, e3, e4]
  have balA : (applyTransfer (applyTransfer s A B pAB.amount) B A pBA.amount A).balance
      = wrapLong ((s A).balance - pAB.amount + pBA.amount) := by
    rw [applyTransfer_balance_to _ hBA, applyTransfer_balance_from _ hAB, wrapLong_add_left]
  have balB : (applyTransfer (applyTransfer s A B pAB.amount) B A pBA.amount B).balance
      = wrapLong ((s B).balance + pAB.amount - pBA.amount) := by
    rw [applyTransfer_balance_from _ hBA, applyTransfer_balance_to _ hAB, wrapLong_sub_left]
  refine ⟨r1, r3, r2, r4, applyTransfer_comm s hAB _ _, balA, balB, fun hl1 hl2 => ?_⟩
  rw [balA, balB, wrapLong_of_isLong hl1, wrapLong_of_isLong hl2]
  exact ⟨rfl, rfl, by omega⟩

/-- Phase 4 scenario run in either order: two accounts at 100, 30 from account 0 to
account 1 and 20 from account 1 to account 0 give 90 and 110, sum 200. -/
theorem phase4_balances :
    ((perform_transfer tp4 (fun _ => true)
        (perform_transfer tp3 (fun _ => true) (initStore fun _ => 100)).2).2 0).balance = 90 ∧
    ((perform_transfer tp4 (fun _ => true)
        (perform_transfer tp3 (fun _ => true) (initStore fun _ => 100)).2).2 1).balance = 110 ∧
    ((perform_transfer tp3 (fun _ => true)
        (perform_transfer tp4 (fun _ => true) (initStore fun _ => 100)).2).2 0).balance = 90 ∧
    ((perform_transfer tp3 (fun _ => true)
        (perform_transfer tp4 (fun _ => true) (initStore fun _ => 100)).2).2 1).balance = 110 ∧
    (90 : Int) + 110 = 200 := by
  decide

theorem opposite_transfers_commute_witness :
    (∃ k, k < max_retries ∧ (fun _ => true) k = true) ∧
    ((perform_transfer tp3 (fun _ => true) (initStore fun _ => 100)).1.report = .completed ∧
     (perform_transfer tp4 (fun _ => true)
        (perform_transfer tp3 (fun _ => true) (initStore fun _ => 100)).2).1.report
          = .completed ∧
     (perform_transfer tp4 (fun _ => true) (initStore fun _ => 100)).1.report = .completed ∧
     (perform_transfer tp3 (fun _ => true)
        (perform_transfer tp4 (fun _ => true) (initStore fun _ => 100)).2).1.report
          = .completed ∧
     (perform_transfer tp4 (fun _ => true)
        (perform_transfer tp3 (fun _ => true) (initStore fun _ => 100)).2).2
      = (perform_transfer tp3 (fun _ => true)
          (perform_transfer tp4 (fun _ => true) (initStore fun _ => 100)).2).2 ∧
     ((perform_transfer tp4 (fun _ => true)
        (perform_transfer tp3 (fun _ => true) (initStore fun _ => 100)).2).2 0).balance
      = wrapLong ((initStore (fun _ => 100) 0).balance - tp3.amount + tp4.amount) ∧
     ((perform_transfer tp4 (fun _ => true)
        (perform_transfer tp3 (fun _ => true) (initStore fun _ => 100)).2).2 1).balance
      = wrapLong ((initStore (fun _ => 100) 1).balance + tp3.amount - tp4.amount) ∧
     (isLong ((initStore (fun _ => 100) 0).balance - tp3.amount + tp4.amount) →
      isLong ((initStore (fun _ => 100) 1).balance + tp3.amount - tp4.amount) →
       ((perform_transfer tp4 (fun _ => true)
          (perform_transfer tp3 (fun _ => true) (initStore fun _ => 100)).2).2 0).balance
         = (initStore (fun _ => 100) 0).balance - tp3.amount + tp4.amount ∧
       ((perform_transfer tp4 (fun _ => true)
          (perform_transfer tp3 (fun _ => true) (initStore fun _ => 100)).2).2 1).balance
         = (initStore (fun _ => 100) 1).balance + tp3.amount - tp4.amount ∧
       ((perform_transfer tp4 (fun _ => true)
          (perform_transfer tp3 (fun _ => true) (initStore fun _ => 100)).2).2 0).balance +
         ((perform_transfer tp4 (fun _ => true)
          (perform_transfer tp3 (fun _ => true) (initStore fun _ => 100)).2).2 1).balance
         = (initStore (fun _ => 100) 0).balance + (initStore (fun _ => 100) 1).balance)) :=
  ⟨⟨0, by decide, rfl⟩,
    opposite_transfers_commute (fun _ => true) (fun _ => true) tp3 tp4 (initStore fun _ => 100)
      0 1 rfl rfl ⟨rfl, rfl⟩ (by decide) (by decide) (by decide) rfl rfl
      ⟨0, by decide, rfl⟩ ⟨0, by decide, rfl⟩⟩

/-- Counterexample to C8 as stated: with A0 = `LONG_MAX`, B0 = 100, a = 30 and
b = 40 both transfers complete, in either order, and balance(A) is not
`A0 - a + b`, which no `long` equals, nor is the sum of the two balances `A0 + B0`. -/
theorem opposite_transfers_overflow :
    (perform_transfer ⟨1, 0, 1, 30, 1⟩ (fun _ => true) highStore).1.report = .completed ∧
    (perform_transfer ⟨2, 1, 0, 40, 1⟩ (fun _ => true)
      (perform_transfer ⟨1, 0, 1, 30, 1⟩ (fun _ => true) highStore).2).1.report = .completed ∧
    ((perform_transfer ⟨2, 1, 0, 40, 1⟩ (fun _ => true)
      (perform_transfer ⟨1, 0, 1, 30, 1⟩ (fun _ => true) highStore).2).2 0).balance
        ≠ (highStore 0).balance - 30 + 40 ∧
    ((perform_transfer ⟨1, 0, 1, 30, 1⟩ (fun _ => true)
      (perform_transfer ⟨2, 1, 0, 40, 1⟩ (fun _ => true) highStore).2).2 0).balance
        ≠ (highStore 0).balance - 30 + 40 ∧
    ((perform_transfer ⟨2, 1, 0, 40, 1⟩ (fun _ => true)
      (perform_transfer ⟨1, 0, 1, 30, 1⟩ (fun _ => true) highStore).2).2 0).balance +
      ((perform_transfer ⟨2, 1, 0, 40, 1⟩ (fun _ => true)
      (perform_transfer ⟨1, 0, 1, 30, 1⟩ (fun _ => true) highStore).2).2 1).balance
        ≠ (highStore 0).balance + (highStore 1).balance ∧
    (∀ v, isLong v → v ≠ (highStore 0).balance - 30 + 40) := by
  refine ⟨by decide, by decide, by decide, by decide, by decide, fun v hv => ?_⟩
  have e : (highStore 0).balance = LONG_MAX := by decide
  rw [e]
  unfold isLong at hv
  unfold LONG_MAX at hv ⊢
  omega

/-! ## The naive runner and a single operation -/

/-- Phase 3: the two naive transfers of `main` can reach a circular wait in which
neither worker has a step to take, with both balances still untouched. -/
theorem naive_transfers_deadlock :
    ∃ g, Sys.exec [(0, true), (0, true), (1, true), (1, true), (0, true), (1, true)]
        (boot (fun _ => 100) [Request.transfer tp1, Request.transfer tp2]) = some g ∧
      g.circularWait ∧ (∀ k fr, g.step k fr = none) ∧ ¬ g.allFinished ∧
      (g.store 0).balance = 100 ∧ (g.store 1).balance = 100 := by
  refine ⟨_, rfl, ⟨0, ?_⟩, ?_, by decide, by decide, by decide⟩
  · refine Relation.TransGen.tail (Relation.TransGen.single (b := 1) ?_) ?_
    · exact ⟨_, (1 : Int), (1 : Fin NUM_ACCOUNTS), rfl, rfl, rfl, rfl⟩
    · exact ⟨_, (0 : Int), (0 : Fin NUM_ACCOUNTS), rfl, rfl, rfl, rfl⟩
  · intro k fr
    match k with
    | 0 => cases fr <;> rfl
    | 1 => cases fr <;> rfl
    | k + 2 => rfl

/-- Result of `perform_operation(&p)` run alone on an in-bounds account with a free
mutex, with or without `use_mutex`: the worker reaches `pthread_exit`, the balance
of the account is the old balance plus the amount (as a `long`), nothing else
changes and the mutex is free again. -/
theorem perform_operation_alone (p : OpParams) (s : Store) (X : Fin NUM_ACCOUNTS)
    (hX : slot p.acc_id = some X) (hfree : (s X).mutex = none) :
    (perform_operation p s).1.pc = .finished ∧
    (perform_operation p s).2 = setBalance s X (wrapLong ((s X).balance + p.amount)) := by
  by_cases hm : p.use_mutex = 0
  · simp [perform_operation, soloOpRun, OpThread.step, OpThread.start, hm, hX, getBalance]
  · simp [perform_operation, soloOpRun, OpThread.step, OpThread.start, hm, hX, getBalance,
      pthread_mutex_lock, pthread_mutex_unlock, hfree, setBalance]

/-! ## Balances under concurrent transfers -/

theorem TransferThread.transfer_step_effect (me : Nat) (fr : Bool) (t t' : TransferThread)
    (s s' : Store) (h : t.step me fr s = some (t', s')) :
    ((t.pc = .debit_wr ∨ t.pc = .n_debit_wr) ∧ (t'.pc = .credit_rd ∨ t'.pc = .n_credit_rd) ∧
      ∃ X, slot t.p.from_acc = some X ∧ (s' X).balance = wrapLong (t.tmp - t.p.amount) ∧
        (∀ i, i ≠ X → (s' i).balance = (s i).balance) ∧
        (∀ i, t'.applied i = t.applied i + if i = X then -t.p.amount else 0)) ∨
    ((t.pc = .credit_wr ∨ t.pc = .n_credit_wr) ∧
      (t'.pc = .unlock_second ∨ t'.pc = .n_unlock_to) ∧
      ∃ Y, slot t.p.to_acc = some Y ∧ (s' Y).balance = wrapLong (t.tmp + t.p.amount) ∧
        (∀ i, i ≠ Y → (s' i).balance = (s i).balance) ∧
        (∀ i, t'.applied i = t.applied i + if i = Y then t.p.amount else 0)) ∨
    ((∀ i, (s' i).balance = (s i).balance) ∧ (∀ i, t'.applied i = t.applied i) ∧
      (∀ i, (t'.pc = .debit_wr ∨ t'.pc = .n_debit_wr) → slot t'.p.from_acc = some i →
        t'.tmp = (s i).balance) ∧
      (∀ i, (t'.pc = .credit_wr ∨ t'.pc = .n_credit_wr) → slot t'.p.to_acc = some i →
        t'.tmp = (s i).balance)) := by
  obtain ⟨p, pc, first, second, gf, gs, k, tmp, rep⟩ := t
  cases pc <;>
    simp [TransferThread.step,
      pthread_mutex_lock, pthread_mutex_unlock, pthread_mutex_trylock, setBalance, getBalance,
      Option.bind_eq_some, Option.map_eq_some'] at h
  case trylock =>
    obtain ⟨a, ha, h⟩ := h
    right; right
    by_cases hc : (s a).mutex = none ∧ fr = true
    · simp [hc] at h
      obtain ⟨rfl, rfl⟩ := h
      refine ⟨fun i => ?_, fun i => ?_, ?_, ?_⟩
      · simp only [Function.update_apply]; split_ifs <;> simp_all
      · simp only [TransferThread.applied, TransferThread.debited, TransferThread.credited]
        split_ifs <;> simp
      · intro i hpc; split_ifs at hpc <;> simp at hpc
      · intro i hpc; split_ifs at hpc <;> simp at hpc
    · simp [hc] at h
      obtain ⟨rfl, rfl⟩ := h
      simp [TransferThread.applied, TransferThread.debited, TransferThread.credited]
  case debit_wr =>
    obtain ⟨a, ha, rfl, rfl⟩ := h
    left
    refine ⟨Or.inl rfl, Or.inl rfl, a, ha, by simp, fun i hi => by simp [Function.update_noteq hi],
      fun i => ?_⟩
    simp only [TransferThread.applied, TransferThread.debited, TransferThread.credited, ha]
    by_cases hi : i = a
    · subst hi; simp
    · have hi' : a ≠ i := fun e => hi e.symm
      simp [hi, hi']
  case n_debit_wr =>
    obtain ⟨a, ha, rfl, rfl⟩ := h
    left
    refine ⟨Or.inr rfl, Or.inr rfl, a, ha, by simp, fun i hi => by simp [Function.update_noteq hi],
      fun i => ?_⟩
    simp only [TransferThread.applied, TransferThread.debited, TransferThread.credited, ha]
    by_cases hi : i = a
    · subst hi; simp
    · have hi' : a ≠ i := fun e => hi e.symm
      simp [hi, hi']
  case credit_wr =>
    obtain ⟨a, ha, rfl, rfl⟩ := h
    right; left
    refine ⟨Or.inl rfl, Or.inl rfl, a, ha, by simp, fun i hi => by simp [Function.update_noteq hi],
      fun i => ?_⟩
    simp only [TransferThread.applied, TransferThread.debited, TransferThread.credited, ha]
    by_cases hi : i = a
    · subst hi; simp
    · have hi' : a ≠ i := fun e => hi e.symm
      simp [hi, hi']
  case n_credit_wr =>
    obtain ⟨a, ha, rfl, rfl⟩ := h
    right; left
    refine ⟨Or.inr rfl, Or.inr rfl, a, ha, by simp, fun i hi => by simp [Function.update_noteq hi],
      fun i => ?_⟩
    simp only [TransferThread.applied, TransferThread.debited, TransferThread.credited, ha]
    by_cases hi : i = a
    · subst hi; simp
    · have hi' : a ≠ i := fun e => hi e.symm
      simp [hi, hi']
  all_goals try split_ifs at h
  all_goals try simp only [Option.some.injEq, Prod.mk.injEq] at h
  all_goals first
    | (obtain ⟨rfl, rfl⟩ := h)
    | (obtain ⟨a, ha, rfl, rfl⟩ := h)
    | (obtain ⟨a, ha, hm, rfl, rfl⟩ := h)
  all_goals right; right
  all_goals
    simp [TransferThread.applied, TransferThread.debited, TransferThread.credited,
      Function.update_apply]
  all_goals try (intro i; split_ifs <;> simp_all)
  all_goals try (intro i hi; simp_all)

theorem Sys.applied_step {g g' : Sys} {me : Nat} {th th' : Thread}
    (hth : g.threads[me]? = some th) (hset : g'.threads = g.threads.set me th')
    (i : Fin NUM_ACCOUNTS) :
    g'.applied i = g.applied i - th.applied i + th'.applied i := by
  simp only [Sys.applied, hset, List.map_set]
  exact sum_set_int _ me _ _ (by rw [List.getElem?_map, hth]; rfl)

theorem Sys.threads_transfer {ps : List TransferParams} {g : Sys}
    (hinv : g.inv (ps.map Request.transfer)) {k : Nat} {th : Thread}
    (hk : g.threads[k]? = some th) : ∃ t, th = .transfer t ∧ ps[k]? = some t.p := by
  have hr := (hinv.2.2 k th hk).2
  rw [List.getElem?_map] at hr
  cases hp : ps[k]? with
  | none => simp [hp] at hr
  | some p =>
    simp [hp] at hr
    cases th with
    | op t => simp [Thread.request] at hr
    | transfer t =>
      simp [Thread.request] at hr
      exact ⟨t, rfl, by rw [hr]⟩

theorem Sys.transferInv_step {bal : Fin NUM_ACCOUNTS → Int} {ps : List TransferParams}
    {g g' : Sys} {me : Nat} {fr : Bool} (hinv : g.inv (ps.map Request.transfer))
    (hJ : g.transferInv bal) (h : g.step me fr = some g') : g'.transferInv bal := by
  obtain ⟨th, th', hth, hstep, hset⟩ := Sys.step_inv h
  have hlt : me < g.threads.length := (List.getElem?_eq_some_iff.mp hth).1
  obtain ⟨t, rfl, _⟩ := Sys.threads_transfer hinv hth
  obtain ⟨hok, hwf, hown⟩ := Sys.inv_transfer hinv hth
  simp only [Thread.step, Option.map_eq_some'] at hstep
  obtain ⟨⟨t', s1⟩, hst, heq⟩ := hstep
  simp only [Prod.mk.injEq] at heq
  obtain ⟨rfl, hs1⟩ := heq
  subst hs1
  have happ := fun i => Sys.applied_step hth hset i
  simp only [Thread.applied] at happ
  obtain ⟨hB, hR⟩ := hJ
  have hother : ∀ (k : Nat) (u : TransferThread), k ≠ me →
      g'.threads[k]? = some (Thread.transfer u) → g.threads[k]? = some (Thread.transfer u) :=
    fun k u hk hu => by rwa [Sys.threads_step h k hk] at hu
  have hmine : g'.threads[me]? = some (Thread.transfer t') := by
    rw [hset, List.getElem?_set_self hlt]
  -- a worker other than `me` at a write point of account `i` excludes `me` holding `i`
  have hexcl : ∀ (k : Nat) (u : TransferThread) (i : Fin NUM_ACCOUNTS), k ≠ me →
      g.threads[k]? = some (Thread.transfer u) → u.pc.mutating = true →
      (slot u.p.from_acc = some i ∨ slot u.p.to_acc = some i) →
      (g.store i).mutex ≠ some me := by
    intro k u i hkm hk hm hi hme
    obtain ⟨_, hwfu, hownu⟩ := Sys.inv_transfer hinv hk
    have := (hownu i).mp (TransferThread.holds_mutating hwfu hm i hi)
    rw [hme] at this
    exact hkm (Option.some.inj this).symm
  have hp' : t'.p = t.p := (TransferThread.transfer_step_wf me fr t t' g.store g'.store hwf hst).2
  rcases TransferThread.transfer_step_effect me fr t t' g.store g'.store hst with
    ⟨hpc, hpc', X, hX, hbX, hbo, hap⟩ | ⟨hpc, hpc', Y, hY, hbY, hbo, hap⟩ | ⟨hb, hap, hrd, hrc⟩
  · have hold : t.tmp = (g.store X).balance := (hR me t X hth).1 hpc hX
    have hmeX : (g.store X).mutex = some me :=
      (hown X).mp (TransferThread.holds_mutating hwf
        (by rcases hpc with e | e <;> simp [e, TPc.mutating]) X (Or.inl hX))
    refine ⟨fun i => ?_, fun k u i hk => ?_⟩
    · by_cases hi : i = X
      · subst hi
        rw [hbX, happ, hap, hold, hB i, wrapLong_sub_left]
        simp only [if_true]
        congr 1; omega
      · rw [hbo i hi, happ, hap, hB i]
        simp only [hi, if_false]
        congr 1; omega
    · by_cases hkm : k = me
      · subst hkm
        rw [hmine] at hk
        obtain rfl := Thread.transfer.inj (Option.some.inj hk)
        constructor <;> intro hu <;> rcases hpc' with e | e <;> rw [e] at hu <;> simp at hu
      · have hk0 := hother k u hkm hk
        have hne : ∀ (hm : u.pc.mutating = true)
            (hi : slot u.p.from_acc = some i ∨ slot u.p.to_acc = some i), i ≠ X :=
          fun hm hi e => hexcl k u i hkm hk0 hm hi (e ▸ hmeX)
        constructor
        · intro hu hi
          rw [hbo i (hne (by rcases hu with e | e <;> simp [e, TPc.mutating]) (Or.inl hi))]
          exact (hR k u i hk0).1 hu hi
        · intro hu hi
          rw [hbo i (hne (by rcases hu with e | e <;> simp [e, TPc.mutating]) (Or.inr hi))]
          exact (hR k u i hk0).2 hu hi
  · have hold : t.tmp = (g.store Y).balance := (hR me t Y hth).2 hpc hY
    have hmeY : (g.store Y).mutex = some me :=
      (hown Y).mp (TransferThread.holds_mutating hwf
        (by rcases hpc with e | e <;> simp [e, TPc.mutating]) Y (Or.inr hY))
    refine ⟨fun i => ?_, fun k u i hk => ?_⟩
    · by_cases hi : i = Y
      · subst hi
        rw [hbY, happ, hap, hold, hB i, wrapLong_add_left]
        simp only [if_true]
        congr 1; omega
      · rw [hbo i hi, happ, hap, hB i]
        simp only [hi, if_false]
        congr 1; omega
    · by_cases hkm : k = me
      · subst hkm
        rw [hmine] at hk
        obtain rfl := Thread.transfer.inj (Option.some.inj hk)
        constructor <;> intro hu <;> rcases hpc' with e | e <;> rw [e] at hu <;> simp at hu
      · have hk0 := hother k u hkm hk
        have hne : ∀ (hm : u.pc.mutating = true)
            (hi : slot u.p.from_acc = some i ∨ slot u.p.to_acc = some i), i ≠ Y :=
          fun hm hi e => hexcl k u i hkm hk0 hm hi (e ▸ hmeY)
        constructor
        · intro hu hi
          rw [hbo i (hne (by rcases hu with e | e <;> simp [e, TPc.mutating]) (Or.inl hi))]
          exact (hR k u i hk0).1 hu hi
        · intro hu hi
          rw [hbo i (hne (by rcases hu with e | e <;> simp [e, TPc.mutating]) (Or.inr hi))]
          exact (hR k u i hk0).2 hu hi
  · refine ⟨fun i => ?_, fun k u i hk => ?_⟩
    · rw [hb i, happ, hap i, hB i]
      congr 1; omega
    · rw [hb i]
      by_cases hkm : k = me
      · subst hkm
        rw [hmine] at hk
        obtain rfl := Thread.transfer.inj (Option.some.inj hk)
        exact ⟨hrd i, hrc i⟩
      · exact hR k u i (hother k u hkm hk)

theorem Sys.transferInv_exec {bal : Fin NUM_ACCOUNTS → Int} {ps : List TransferParams}
    (sched : List (Nat × Bool)) :
    ∀ {g g' : Sys}, g.inv (ps.map Request.transfer) → g.transferInv bal →
      Sys.exec sched g = some g' → g'.transferInv bal := by
  induction sched with
  | nil => intro g g' _ hJ h; simp [Sys.exec] at h; subst h; exact hJ
  | cons x rest ih =>
    intro g g' hinv hJ h
    obtain ⟨me, fr⟩ := x
    simp only [Sys.exec, Option.bind_eq_some] at h
    obtain ⟨g1, h1, h2⟩ := h
    exact ih (Sys.inv_step hinv h1) (Sys.transferInv_step hinv hJ h1) h2

theorem boot_transferInv (bal : Fin NUM_ACCOUNTS → Int) (hbal : ∀ i, isLong (bal i))
    (ps : List TransferParams) : (boot bal (ps.map Request.transfer)).transferInv bal := by
  have hstart : ∀ (k : Nat) (t : TransferThread),
      (boot bal (ps.map Request.transfer)).threads[k]? = some (Thread.transfer t) →
      ∃ p, t = TransferThread.start p := by
    intro k t hk
    simp only [boot, List.map_map, List.getElem?_map, Option.map_eq_some'] at hk
    obtain ⟨p, _, hp⟩ := hk
    simp only [Function.comp, Request.spawn] at hp
    exact ⟨p, (Thread.transfer.inj hp).symm⟩
  refine ⟨fun i => ?_, fun k t i hk => ?_⟩
  · have h0 : (boot bal (ps.map Request.transfer)).applied i = 0 := by
      unfold Sys.applied
      apply List.sum_eq_zero
      intro x hx
      obtain ⟨th, hth, rfl⟩ := List.mem_map.mp hx
      simp only [boot, List.map_map, List.mem_map] at hth
      obtain ⟨p, _, rfl⟩ := hth
      simp [Request.spawn, Thread.applied, TransferThread.applied, TransferThread.debited,
        TransferThread.credited, TransferThread.start]
    rw [h0, Int.add_zero, wrapLong_of_isLong (hbal i)]
    rfl
  · obtain ⟨p, rfl⟩ := hstart k t hk
    simp [TransferThread.start]

/-- Balances under concurrent transfers: in every reachable state of a population
of transfer workers, naive or deadlock-avoiding, on `long` initial balances, the
balance of every account is its initial balance plus the amounts already applied
to it, reduced modulo 2^64 into the range of `long`. -/
theorem transfers_balance (bal : Fin NUM_ACCOUNTS → Int) (hbal : ∀ i, isLong (bal i))
    (ps : List TransferParams) (sched : List (Nat × Bool)) (g : Sys)
    (h : Sys.exec sched (boot bal (ps.map Request.transfer)) = some g) (i : Fin NUM_ACCOUNTS) :
    (g.store i).balance = wrapLong (bal i + g.applied i) :=
  (Sys.transferInv_exec sched (boot_inv bal _) (boot_transferInv bal hbal ps) h).1 i

theorem applied_finished {t : TransferThread} (hpc : t.pc = .finished) (i : Fin NUM_ACCOUNTS) :
    t.applied i =
      if t.report = .completed then
        (if slot t.p.from_acc = some i then -t.p.amount else 0) +
        (if slot t.p.to_acc = some i then t.p.amount else 0)
      else 0 := by
  simp only [TransferThread.applied, TransferThread.debited, TransferThread.credited, hpc]
  by_cases hr : t.report = .completed <;> simp [hr]

/-- The two deadlock-avoiding workers of Phase 4 as a population of their own, on
free mutexes and with no worker of Phase 3 left running: whatever the schedule,
when both have finished the two balances add up to 200, and when both report
completion account 0 holds 90 and account 1 holds 110. -/
theorem phase4_concurrent (sched : List (Nat × Bool)) (g : Sys)
    (h : Sys.exec sched (boot (fun _ => 100) ([tp3, tp4].map Request.transfer)) = some g)
    (hfin : g.allFinished) :
    (g.store 0).balance + (g.store 1).balance = 200 ∧
    ((∀ t, Thread.transfer t ∈ g.threads → t.report = .completed) →
      (g.store 0).balance = 90 ∧ (g.store 1).balance = 110) := by
  have hinv := reachable_inv h
  have hlen : g.threads.length = 2 := by simpa using hinv.2.1
  obtain ⟨th0, th1, hthreads⟩ := List.length_eq_two.mp hlen
  have hk0 : g.threads[0]? = some th0 := by simp [hthreads]
  have hk1 : g.threads[1]? = some th1 := by simp [hthreads]
  obtain ⟨t0, rfl, hp0⟩ := Sys.threads_transfer hinv hk0
  obtain ⟨t1, rfl, hp1⟩ := Sys.threads_transfer hinv hk1
  have hp0 : t0.p = tp3 := by simpa using hp0.symm
  have hp1 : t1.p = tp4 := by simpa using hp1.symm
  have hf0 : t0.pc = .finished := by
    have := hfin (Thread.transfer t0) (by simp [hthreads]); simpa [Thread.finished] using this
  have hf1 : t1.pc = .finished := by
    have := hfin (Thread.transfer t1) (by simp [hthreads]); simpa [Thread.finished] using this
  have hr0 := (Sys.inv_transfer hinv hk0).2.1.2.2.2 hf0
  have hr1 := (Sys.inv_transfer hinv hk1).2.1.2.2.2 hf1
  have hb : ∀ i, (g.store i).balance
      = wrapLong (100 + (t0.applied i + (t1.applied i + 0))) := fun i => by
    have := transfers_balance (fun _ => 100) (fun _ => (by decide : isLong 100)) [tp3, tp4]
      sched g h i
    simpa [Sys.applied, hthreads, Thread.applied] using this
  -- the amounts applied by a finished worker, account by account
  have a00 : t0.applied 0 = if t0.report = .completed then -30 else 0 := by
    rw [applied_finished hf0, hp0]; rfl
  have a01 : t0.applied 1 = if t0.report = .completed then 30 else 0 := by
    rw [applied_finished hf0, hp0]; rfl
  have a10 : t1.applied 0 = if t1.report = .completed then 20 else 0 := by
    rw [applied_finished hf1, hp1]; rfl
  have a11 : t1.applied 1 = if t1.report = .completed then -20 else 0 := by
    rw [applied_finished hf1, hp1]; rfl
  have b0 := hb 0
  have b1 := hb 1
  rw [a00, a10] at b0
  rw [a01, a11] at b1
  rw [b0, b1]
  constructor
  · rcases hr0 with e0 | e0 <;> rcases hr1 with e1 | e1 <;> rw [e0, e1] <;> decide
  · intro hall
    have e0 := hall t0 (by simp [hthreads])
    have e1 := hall t1 (by simp [hthreads])
    rw [e0, e1]
    decide

end Bank
